import Mathlib

/-!
Verification development for the Coordinate asset-indexing subsystem
(db/rocksdb_coordinatetype.go).  Byte strings are modelled as `List Nat`
(one element per byte), Go strings that are scanned character-wise as
`List Char`, `big.Int` as `Int`, and `uint32` as `Nat` with explicit
`% 2^32` where wrap-around matters.  The RocksDB column family is
modelled in two ways matching its two uses: point reads go through an
oracle (`PointDb.get`, which can fail), and range iteration works over
an explicitly key-sorted association list.  A Go runtime panic
(out-of-range slice access) is modelled as `Option.none` in the codecs
and as the error value `GoErr.panik` where it propagates.
-/

set_option maxHeartbeats 1000000

/-- Errors observable from the Go code: `err` is a returned `error`
value, `panik` is a runtime panic (out-of-range slice access). -/
inductive GoErr
  | err
  | panik
deriving DecidableEq

instance {ε α : Type} [DecidableEq ε] [DecidableEq α] : DecidableEq (Except ε α) :=
  fun a b =>
    match a, b with
    | .error e, .error e' => if h : e = e' then .isTrue (by rw [h]) else .isFalse (by simp [h])
    | .ok x, .ok y => if h : x = y then .isTrue (by rw [h]) else .isFalse (by simp [h])
    | .error _, .ok _ => .isFalse (by simp)
    | .ok _, .error _ => .isFalse (by simp)

/-! ### Byte-string ordering (bytes.Compare) and key prefixes -/

/-- Lexicographic strict order on byte strings, `bytes.Compare a b < 0`.
A proper prefix is smaller than its extensions. -/
def byteLt : List Nat → List Nat → Bool
  | [], [] => false
  | [], _ :: _ => true
  | _ :: _, [] => false
  | a :: as, b :: bs => if a < b then true else if b < a then false else byteLt as bs

/-- Non-strict byte-string order, `bytes.Compare a b <= 0`. -/
def byteLe (a b : List Nat) : Bool := !(byteLt b a)

/-! ### Variable-length integer codecs.

`packVaruint` / `unpackVaruint` / `unpackBigint` / `packBigint` are used
by the asset code but live outside the given sources. -/

/-- Structural worker for `packVaruint` (fuel bounds the group count so
the definition reduces inside the kernel). -/
def packVaruintGo : Nat → Nat → List Nat
  | 0, _ => []
  | fuel + 1, n =>
    if n < 128 then [n] else (n % 128 + 128) :: packVaruintGo fuel (n / 128)

/-- Modelled from the spec: variable-length unsigned integer, seven-bit
little-endian groups with the high bit marking continuation
(the codec layer of section 4.1). -/
def packVaruint (n : Nat) : List Nat := packVaruintGo (n + 1) n

/-- Modelled from the spec: decoder for `packVaruint`; returns the value
and the number of bytes consumed.  On input that ends inside a
continuation group it stops at the end of input. -/
def unpackVaruint : List Nat → Nat × Nat
  | [] => (0, 0)
  | b :: rest =>
    if b % 256 < 128 then (b % 256, 1)
    else
      let r := unpackVaruint rest
      (b % 128 + 128 * r.1, r.2 + 1)

/-- Structural worker for `natLEDigits`. -/
def natLEDigitsGo : Nat → Nat → List Nat
  | 0, _ => []
  | fuel + 1, n => if n = 0 then [] else n % 256 :: natLEDigitsGo fuel (n / 256)

/-- Little-endian base-256 digits of a natural number (no leading zero). -/
def natLEDigits (n : Nat) : List Nat := natLEDigitsGo (n + 1) n

/-- Big-endian value of a digit list (bytes). -/
def beNat (l : List Nat) : Nat := l.foldl (fun a d => a * 256 + d % 256) 0

/-- Modelled from the spec: arbitrary-precision integer codec, a
length-prefixed big-endian byte representation of the magnitude
(host `big.Int.Bytes`).  Negative values lose their sign. -/
def packBigint (z : Int) : List Nat :=
  let bs := (natLEDigits z.natAbs).reverse
  bs.length :: bs

/-- Modelled from the spec: decoder for `packBigint`.  The length byte is
read unchecked in the host code, so an empty buffer or a length running
past the end is a panic, modelled as `none`. -/
def unpackBigint : List Nat → Option (Int × Nat)
  | [] => none
  | b :: rest =>
    let l := b % 256
    if l ≤ rest.length then some (Int.ofNat (beNat (rest.take l)), l + 1)
    else none

/-! ### Descending-height key suffix (packDescHeight / unpackDescHeight) -/

/-- Big-endian four-byte encoding of a value below 2^32. -/
def beBytes4 (n : Nat) : List Nat :=
  [n / 2 ^ 24 % 256, n / 2 ^ 16 % 256, n / 2 ^ 8 % 256, n % 256]

/-- Big-endian value of exactly four bytes (binary.BigEndian.Uint32). -/
def beVal4 : List Nat → Nat
  | [a, b, c, d] => ((a * 256 + b) * 256 + c) * 256 + d
  | _ => 0

/-- packDescHeight: big-endian bytes of the bitwise complement of the
`uint32` height, so lexicographic order is descending in height. -/
def packDescHeight (height : Nat) : List Nat :=
  beBytes4 (2 ^ 32 - 1 - height % 2 ^ 32)

/-- unpackDescHeight: the complement of the big-endian 4-byte value. -/
def unpackDescHeight (buf : List Nat) : Nat :=
  2 ^ 32 - 1 - beVal4 buf

/-! ### int32 helpers -/

/-- Reinterpret a Nat (mod 2^32) as a two's-complement int32. -/
def toInt32 (n : Nat) : Int :=
  let m := n % 2 ^ 32
  if m < 2 ^ 31 then Int.ofNat m else Int.ofNat m - 2 ^ 32

/-- Conversion int32 → uint64 as used by `uint(...)` casts in packing. -/
def intToUint64 (i : Int) : Nat := (i.emod (2 ^ 64)).toNat

/-! ### Key prefixes ("ac:", "aa:", "ax:", "gt:") -/

def acPfx : List Nat := [97, 99, 58]
def aaPfx : List Nat := [97, 97, 58]
def axPfx : List Nat := [97, 120, 58]
def gtPfx : List Nat := [103, 116, 58]

/-- ASCII bytes of a Go string (the asset code stores tickers as UTF-8;
the model works at byte granularity for ASCII data). -/
def strBytes (s : List Char) : List Nat := s.map Char.toNat

/-! ### Asset registry entry and its codec -/

structure AssetRegistryEntry where
  ticker : List Char
  headline : List Char
  precision : Int
  assetType : Int
  totalSupply : Int
  currentController : List Nat
  isRedirect : Bool
deriving DecidableEq

instance : Inhabited AssetRegistryEntry := ⟨⟨[], [], 0, 0, 0, [], false⟩⟩

/-- packAssetRegistryEntry: tag byte then redirect payload or the normal
payload of length-prefixed fields. -/
def packAssetRegistryEntry (e : AssetRegistryEntry) : List Nat :=
  if e.isRedirect then 1 :: e.currentController
  else
    0 :: (packVaruint e.ticker.length ++ strBytes e.ticker ++
      packVaruint e.headline.length ++ strBytes e.headline ++
      packVaruint (intToUint64 e.precision) ++
      packVaruint (intToUint64 e.assetType) ++
      packBigint e.totalSupply ++
      packVaruint e.currentController.length ++ e.currentController)

/-- Go slice `d[0:n]`, which panics (here `none`) when `n` exceeds the
length. -/
def takeExact (d : List Nat) (n : Nat) : Option (List Nat) :=
  if n ≤ d.length then some (d.take n) else none

/-- Bytes back to a Go string (ASCII granularity). -/
def bytesStr (l : List Nat) : List Char := l.map Char.ofNat

/-- unpackAssetRegistryEntry.  Outer `none` is a Go panic (slice out of
range on truncated input); `some none` is the `(nil, nil)` result for
empty input.  The Go function never returns a non-nil error. -/
def unpackAssetRegistryEntry (data : List Nat) : Option (Option AssetRegistryEntry) :=
  match data with
  | [] => some none
  | t :: rest =>
    if t = 1 then some (some ⟨[], [], 0, 0, 0, rest, true⟩)
    else
      let p1 := unpackVaruint rest
      let d1 := rest.drop p1.2
      match takeExact d1 p1.1 with
      | none => none
      | some tickerB =>
        let d2 := d1.drop p1.1
        let p2 := unpackVaruint d2
        let d3 := d2.drop p2.2
        match takeExact d3 p2.1 with
        | none => none
        | some headlineB =>
          let d4 := d3.drop p2.1
          let pPrec := unpackVaruint d4
          let d5 := d4.drop pPrec.2
          let pTyp := unpackVaruint d5
          let d6 := d5.drop pTyp.2
          match unpackBigint d6 with
          | none => none
          | some (supply, lS) =>
            let d7 := d6.drop lS
            let pCl := unpackVaruint d7
            let d8 := d7.drop pCl.2
            match takeExact d8 pCl.1 with
            | none => none
            | some ctrl =>
              some (some ⟨bytesStr tickerB, bytesStr headlineB,
                toInt32 pPrec.1, toInt32 pTyp.1, supply, ctrl, false⟩)

/-! ### Per-address asset balance and its codec -/

structure AddrAssetBalance where
  txs : Nat
  balanceSat : Int
  sentSat : Int
deriving DecidableEq

instance : Inhabited AddrAssetBalance := ⟨⟨0, 0, 0⟩⟩

/-- packAddrAssetBalance: varuint txCount, bigint balance, bigint sent. -/
def packAddrAssetBalance (ab : AddrAssetBalance) : List Nat :=
  packVaruint ab.txs ++ packBigint ab.balanceSat ++ packBigint ab.sentSat

/-- unpackAddrAssetBalance.  Outer `none` is a Go panic (unpackBigint
reads its length byte unchecked); `some none` is the nil result for
empty input.  The Go function never returns a non-nil error. -/
def unpackAddrAssetBalance (data : List Nat) : Option (Option AddrAssetBalance) :=
  match data with
  | [] => some none
  | _ =>
    let p := unpackVaruint data
    match unpackBigint (data.drop p.2) with
    | none => none
    | some (bal, l2) =>
      match unpackBigint (data.drop (p.2 + l2)) with
      | none => none
      | some (sent, _) => some (some ⟨p.1 % 2 ^ 32, bal, sent⟩)

/-! ### Keys -/

def regKey (controller : List Nat) : List Nat := acPfx ++ controller

def makeAddrAssetKey (addrDesc controller : List Nat) : List Nat :=
  aaPfx ++ addrDesc ++ controller

def makeAddrAssetTxKey (addrDesc controller : List Nat) (height : Nat) : List Nat :=
  axPfx ++ addrDesc ++ controller ++ packDescHeight height

def makeGlobalAssetTxKey (controller : List Nat) (height : Nat) : List Nat :=
  gtPfx ++ controller ++ packDescHeight height

/-! ### History record packing (packAssetTxEntry / appendVarint32) -/

/-- appendVarint32: little-endian seven-bit groups of `uint32(v)`. -/
def appendVarint32 (v : Int) : List Nat := packVaruint ((v.emod (2 ^ 32)).toNat)

/-- Index list encoding: each index pre-shifted left by one, low bit set
on the last index of the record. -/
def packIdx : List Int → List Nat
  | [] => []
  | [i] => appendVarint32 (i * 2 + 1)
  | i :: rest => appendVarint32 (i * 2) ++ packIdx rest

/-- packAssetTxEntry: packed txid followed by the marked index list. -/
def packAssetTxEntry (btxID : List Nat) (indexes : List Int) : List Nat :=
  btxID ++ packIdx indexes

/-! ### History record parsing (the loops of GetAssetTransactions) -/

/-- Modelled from the spec: tail-marker varint decoder (unpackVarint32),
seven-bit little-endian groups reassembled into a `uint32` then
reinterpreted as int32. -/
def unpackVarint32 (buf : List Nat) : Int × Nat :=
  let r := unpackVaruint buf
  (toInt32 r.1, r.2)

/-- Arithmetic shift right by one of an int32 (Go `index >> 1`). -/
def asr1 (i : Int) : Int := Int.fdiv i 2

/-- Inner loop of the history readers: consume tail-marker varints until
one has its low bit set or the value is exhausted.  Returns the decoded
indexes (already shifted right) and the remaining bytes.  Fuel is the
byte count; each step consumes at least one byte. -/
def parseIdxGo : Nat → List Nat → List Int × List Nat
  | _, [] => ([], [])
  | 0, v => ([], v)
  | fuel + 1, b :: rest =>
    let p := unpackVarint32 (b :: rest)
    let v2 := (b :: rest).drop p.2
    if p.1 % 2 = 1 then ([asr1 p.1], v2)
    else
      let r := parseIdxGo fuel v2
      (asr1 p.1 :: r.1, r.2)

def parseIndexes (val : List Nat) : List Int × List Nat :=
  parseIdxGo val.length val

/-! ### Chain parser abstraction -/

/-- Modelled from the spec: the chain parser's txid codec (fixed packed
length; PackTxid may fail; UnpackTxid is total). -/
structure ChainP where
  packedTxidLen : Nat
  packTxid : List Char → Option (List Nat)
  unpackTxid : List Nat → List Char

/-- Outer loop of the history readers: split the value into records at
the fixed txid length and tail-marker boundaries.  Fuel bounds the
recursion (each record consumes at least one byte past the txid). -/
def parseRecsGo (p : ChainP) : Nat → List Nat → List (List Char × List Int)
  | 0, _ => []
  | fuel + 1, val =>
    if val.length ≤ p.packedTxidLen then []
    else
      let tx := p.unpackTxid (val.take p.packedTxidLen)
      let r := parseIndexes (val.drop p.packedTxidLen)
      (tx, r.1) :: parseRecsGo p fuel r.2

/-- Records of one stored history value, as the reader loops deliver
them to the callback. -/
def parseValue (p : ChainP) (val : List Nat) : List (List Char × List Int) :=
  parseRecsGo p (val.length + 1) val

/-! ### Block data model (bchain.Tx / TxAddresses / AddrBalance) -/

structure Vin where
  txid : List Char
  vout : Nat
deriving DecidableEq

structure Vout where
  valueSat : Int
deriving DecidableEq

/-- Decoded v10 metadata fields carried in CoinSpecificData.  JSON
decoding is abstracted: `none` covers both absent data and a failed
unmarshal (fillAssetMetadataFromTx leaves the entry unchanged then). -/
structure MetaFields where
  ticker : List Char
  headline : List Char
  precision : Int
  assetType : Int
deriving DecidableEq

structure Tx where
  txid : List Char
  version : Int
  vin : List Vin
  vout : List Vout
  coinSpecificData : Option MetaFields
deriving DecidableEq

structure Block where
  height : Nat
  txs : List Tx
deriving DecidableEq

structure TxInput where
  addrDesc : List Nat
  valueSat : Int
deriving DecidableEq

structure TxOutput where
  addrDesc : List Nat
  valueSat : Int
deriving DecidableEq

instance : Inhabited TxOutput := ⟨⟨[], 0⟩⟩

structure TxAddresses where
  inputs : List TxInput
  outputs : List TxOutput
deriving DecidableEq

structure Utxo where
  btxID : List Nat
  vout : Int
  valueSat : Int
  controller : List Nat
  isController : Bool
deriving DecidableEq

structure AddrBalance where
  utxos : List Utxo
deriving DecidableEq

/-! ### Point-read store -/

/-- Point reads used during block processing: `get` is a `GetCF` on the
default column family (it can return a storage error), the other two
oracles stand for getTxAddresses and GetAddrDescBalance, whose errors
the asset code swallows (an error behaves as a missing entry). -/
structure PointDb where
  get : List Nat → Except Unit (Option (List Nat))
  txAddresses : List Nat → Option TxAddresses
  addrBalance : List Nat → Option AddrBalance

structure Env where
  chainP : ChainP
  db : PointDb

/-! ### Registry store reads -/

/-- GetAssetRegistryEntry: point lookup under "ac:", decode.  A storage
error propagates as `.err`; a malformed stored value panics. -/
def GetAssetRegistryEntry (db : PointDb) (controller : List Nat) :
    Except GoErr (Option AssetRegistryEntry) :=
  match db.get (regKey controller) with
  | .error _ => .error .err
  | .ok none => .ok none
  | .ok (some data) =>
    match unpackAssetRegistryEntry data with
    | none => .error .panik
    | some r => .ok r

/-- Loop body of ResolveCurrentController with explicit fuel; also
counts the registry lookups performed.  A read error or a missing entry
terminates with the current identity; a panic from a malformed stored
entry propagates. -/
def resolveAux (db : PointDb) : List Nat → Nat → Except GoErr (List Nat) × Nat
  | current, 0 => (.ok current, 0)
  | current, fuel + 1 =>
    match GetAssetRegistryEntry db current with
    | .error .panik => (.error .panik, 1)
    | .error .err => (.ok current, 1)
    | .ok none => (.ok current, 1)
    | .ok (some e) =>
      if e.isRedirect = false then (.ok e.currentController, 1)
      else if e.currentController = current then (.ok current, 1)
      else
        let r := resolveAux db e.currentController fuel
        (r.1, r.2 + 1)

/-- ResolveCurrentController: follow redirects for at most 100 hops. -/
def ResolveCurrentController (db : PointDb) (controller : List Nat) :
    Except GoErr (List Nat) :=
  (resolveAux db controller 100).1

/-- Number of registry lookups ResolveCurrentController performs. -/
def resolveLookups (db : PointDb) (controller : List Nat) : Nat :=
  (resolveAux db controller 100).2

/-! ### Balance store read -/

def GetAddrAssetBalance (db : PointDb) (addrDesc controller : List Nat) :
    Except GoErr (Option AddrAssetBalance) :=
  match db.get (makeAddrAssetKey addrDesc controller) with
  | .error _ => .error .err
  | .ok none => .ok none
  | .ok (some data) =>
    match unpackAddrAssetBalance data with
    | none => .error .panik
    | some r => .ok r

/-! ### Controller outpoint encoding and string parsing -/

def packControllerOutpoint (p : ChainP) (txid : List Char) (vout : Nat) :
    Option (List Nat) :=
  (p.packTxid txid).map (fun b => b ++ packVaruint vout)

/-- Index of the last colon of the string, -1 when there is none
(the Go code scans bytes downward from the end; the model works at
character granularity, which coincides on ASCII). -/
def lastColonIdx : List Char → Int
  | [] => -1
  | c :: rest =>
    let r := lastColonIdx rest
    if 0 ≤ r then r + 1 else if c = ':' then 0 else -1

/-- ParseControllerString: take the text before the last colon as the
txid, accumulate decimal digits after it into a uint32 vout ignoring
other characters, and pack.  Returns `.ok none` (Go `nil, nil`) when
there is no colon or the last colon is at index 0. -/
def ParseControllerString (p : ChainP) (s : List Char) :
    Except Unit (Option (List Nat)) :=
  let idx := lastColonIdx s
  if idx ≤ 0 then .ok none
  else
    let i := idx.toNat
    let txid := s.take i
    let vout := (s.drop (i + 1)).foldl
      (fun v c => if '0' ≤ c ∧ c ≤ '9' then (v * 10 + (c.toNat - 48)) % 2 ^ 32 else v) 0
    match packControllerOutpoint p txid vout with
    | none => .error ()
    | some b => .ok (some b)

/-! ### uitoa / opKey -/

def uitoaDigitsGo : Nat → Nat → List Char
  | 0, _ => []
  | fuel + 1, n =>
    if n = 0 then [] else Char.ofNat (48 + n % 10) :: uitoaDigitsGo fuel (n / 10)

def uitoaDigits (n : Nat) : List Char := uitoaDigitsGo (n + 1) n

def uitoa (v : Nat) : List Char :=
  if v = 0 then ['0'] else (uitoaDigits v).reverse

def opKey (txid : List Char) (vout : Nat) : List Char := txid ++ ':' :: uitoa vout

/-! ### Association-list helpers (Go maps with deterministic order) -/

def alookup {κ β : Type} [DecidableEq κ] : List (κ × β) → κ → Option β
  | [], _ => none
  | (k, v) :: rest, key => if k = key then some v else alookup rest key

/-- Go map set used for the affected set: membership test, append when
absent (insertion order stands in for Go's map iteration order). -/
def setInsert {κ : Type} [DecidableEq κ] (l : List κ) (k : κ) : List κ :=
  if k ∈ l then l else l ++ [k]

/-- Update the value at the first occurrence of `key` (no-op when the
key is absent). -/
def updateFirst {κ β : Type} [DecidableEq κ] :
    List (κ × β) → κ → (β → β) → List (κ × β)
  | [], _, _ => []
  | (k, v) :: rest, key, f =>
    if k = key then (k, f v) :: rest else (k, v) :: updateFirst rest key f

/-! ### In-flight block-processing state -/

structure CtrlInfo where
  controller : List Nat
  isController : Bool
deriving DecidableEq

structure AssetTxEntry where
  ctrl : List Nat
  btxID : List Nat
  indexes : List Int
deriving DecidableEq

/-- Write-batch puts, in staging order; on commit the last put to a key
wins. -/
abbrev WB := List (List Nat × List Nat)

/-- State threaded through processAssetsCoordinateType: the in-flight
controller map, the affected (address, controller) set, the accumulated
history entries, the mutable per-address balances and the write batch. -/
structure RunSt where
  ctrlMap : List (List Char × CtrlInfo)
  affected : List (List Nat × List Nat)
  assetTxs : List AssetTxEntry
  balances : List (List Nat × AddrBalance)
  wb : WB
deriving DecidableEq

/-! ### Helpers of the propagator -/

/-- Tag the first UTXO matching (btxID, vout) in a UTXO list. -/
def tagUtxos (btxID : List Nat) (vout : Int) (ctl : List Nat) (isCtl : Bool) :
    List Utxo → List Utxo
  | [] => []
  | u :: rest =>
    if u.vout = vout ∧ u.btxID = btxID then
      { u with controller := ctl, isController := isCtl } :: rest
    else u :: tagUtxos btxID vout ctl isCtl rest

/-- tagUtxoController: look up the output's address in the tx-addresses
map, then set (controller, isController) on the matching live UTXO of
that address's balance.  Callers only pass non-negative vout. -/
def tagUtxoController (taMap : List (List Nat × TxAddresses))
    (balances : List (List Nat × AddrBalance))
    (btxID : List Nat) (vout : Int) (ctl : List Nat) (isCtl : Bool) :
    List (List Nat × AddrBalance) :=
  match alookup taMap btxID with
  | none => balances
  | some ta =>
    if h : vout.toNat < ta.outputs.length then
      let ad := (ta.outputs.get ⟨vout.toNat, h⟩).addrDesc
      if ad = [] then balances
      else
        match alookup balances ad with
        | none => balances
        | some _ =>
          updateFirst balances ad (fun b => ⟨tagUtxos btxID vout ctl isCtl b.utxos⟩)
    else balances

/-- Return (controller, isController) of the first UTXO matching
(btxID, vout); nil when the controller bytes are empty. -/
def findUtxoCtrl (btxID : List Nat) (vout : Nat) : List Utxo → Option CtrlInfo
  | [] => none
  | u :: rest =>
    if u.vout = Int.ofNat vout ∧ u.btxID = btxID then
      if u.controller = [] then none else some ⟨u.controller, u.isController⟩
    else findUtxoCtrl btxID vout rest

/-- lookupSpentController: resolve a spent outpoint's controller from
the in-progress TxAddresses map, falling back to disk; every error on
this path is swallowed into a nil result. -/
def lookupSpentController (env : Env) (taMap : List (List Nat × TxAddresses))
    (txid : List Char) (vout : Nat) : Option CtrlInfo :=
  match env.chainP.packTxid txid with
  | none => none
  | some btxID =>
    let ta? := match alookup taMap btxID with
      | some ta => some ta
      | none => env.db.txAddresses btxID
    match ta? with
    | none => none
    | some ta =>
      if h : vout < ta.outputs.length then
        let ad := (ta.outputs.get ⟨vout, h⟩).addrDesc
        if ad = [] then none
        else
          match env.db.addrBalance ad with
          | none => none
          | some bal => findUtxoCtrl btxID vout bal.utxos
      else none

/-- Controller info for an input outpoint: the in-flight map first, then
the spent-controller lookup. -/
def resolveInputCtrl (env : Env) (taMap : List (List Nat × TxAddresses))
    (ctrlMap : List (List Char × CtrlInfo)) (txid : List Char) (vout : Nat) :
    Option CtrlInfo :=
  match alookup ctrlMap (opKey txid vout) with
  | some ci => some ci
  | none => lookupSpentController env taMap txid vout

/-- Phase-1 input scan: the first input resolving with isController=true
provides the old controller. -/
def findOldController (env : Env) (taMap : List (List Nat × TxAddresses))
    (ctrlMap : List (List Char × CtrlInfo)) : List Vin → Option (List Nat)
  | [] => none
  | vin :: rest =>
    if vin.txid = [] then findOldController env taMap ctrlMap rest
    else
      match resolveInputCtrl env taMap ctrlMap vin.txid vin.vout with
      | some ci =>
        if ci.isController then some ci.controller
        else findOldController env taMap ctrlMap rest
      | none => findOldController env taMap ctrlMap rest

/-- Add (addrDesc, controller) to the affected set when the address is
non-empty. -/
def addAffected (aff : List (List Nat × List Nat)) (ad ctl : List Nat) :
    List (List Nat × List Nat) :=
  if ad = [] then aff else setInsert aff (ad, ctl)

/-- Affected additions of a v10: outputs 0 and 1, then every input. -/
def affectedV10 (ta : TxAddresses) (ctl : List Nat)
    (aff : List (List Nat × List Nat)) : List (List Nat × List Nat) :=
  let a1 := (ta.outputs.take 2).foldl (fun a o => addAffected a o.addrDesc ctl) aff
  ta.inputs.foldl (fun a i => addAffected a i.addrDesc ctl) a1

/-- fillAssetMetadataFromTx: optional metadata fields; empty strings and
non-positive precision leave the defaults. -/
def fillAssetMetadataFromTx (tx : Tx) (e : AssetRegistryEntry) : AssetRegistryEntry :=
  match tx.coinSpecificData with
  | none => e
  | some f =>
    let e1 := if f.ticker ≠ [] then { e with ticker := f.ticker } else e
    let e2 := if f.headline ≠ [] then { e1 with headline := f.headline } else e1
    let e3 := if 0 < f.precision then { e2 with precision := f.precision } else e2
    { e3 with assetType := f.assetType }

/-- Registry read whose returned error is ignored by the caller
(`oldEntry, _ := ...`); a panic still propagates. -/
def registryGetIgnErr (db : PointDb) (c : List Nat) :
    Except GoErr (Option AssetRegistryEntry) :=
  match GetAssetRegistryEntry db c with
  | .error .panik => .error .panik
  | .error .err => .ok none
  | .ok o => .ok o

/-! ### Phase 1: v10 ASSET_CREATE -/

/-- One v10 transaction of phase 1 (skip unless version 10 with at least
two outputs): tag outputs 0/1, record the in-flight controllers, extend
the affected set and history list, and stage the registry entry
(plus the redirect on mint-more). -/
def processV10Tx (env : Env) (taMap : List (List Nat × TxAddresses))
    (st : RunSt) (tx : Tx) : Except GoErr RunSt :=
  if tx.version ≠ 10 ∨ tx.vout.length < 2 then .ok st
  else
    match env.chainP.packTxid tx.txid with
    | none => .error .err
    | some btxID =>
      match packControllerOutpoint env.chainP tx.txid 0 with
      | none => .error .err
      | some ctrlOut =>
        let oldCtrl := findOldController env taMap st.ctrlMap tx.vin
        let bal1 := tagUtxoController taMap st.balances btxID 0 ctrlOut true
        let bal2 := tagUtxoController taMap bal1 btxID 1 ctrlOut false
        let cm := (opKey tx.txid 1, CtrlInfo.mk ctrlOut false) ::
          (opKey tx.txid 0, CtrlInfo.mk ctrlOut true) :: st.ctrlMap
        let aff := match alookup taMap btxID with
          | none => st.affected
          | some ta => affectedV10 ta ctrlOut st.affected
        let atx := st.assetTxs ++ [⟨ctrlOut, btxID, [0, 1]⟩]
        let supply := (tx.vout.getD 1 ⟨0⟩).valueSat
        let base : AssetRegistryEntry := ⟨[], [], 8, 0, 0, ctrlOut, false⟩
        let mintMore : Bool := match oldCtrl with
          | some oc => oc ≠ ctrlOut
          | none => false
        match oldCtrl, mintMore with
        | some oc, true => do
          let oldE? ← registryGetIgnErr env.db oc
          let entry := match oldE? with
            | some oldE =>
              if oldE.isRedirect = false then
                { base with
                  ticker := oldE.ticker
                  headline := oldE.headline
                  precision := oldE.precision
                  assetType := oldE.assetType
                  totalSupply := oldE.totalSupply + supply }
              else { base with totalSupply := supply }
            | none => { base with totalSupply := supply }
          let redirect : AssetRegistryEntry := ⟨[], [], 0, 0, 0, ctrlOut, true⟩
          let wb1 := st.wb ++ [(regKey oc, packAssetRegistryEntry redirect)]
          let wb2 := wb1 ++ [(regKey ctrlOut, packAssetRegistryEntry entry)]
          pure ⟨cm, aff, atx, bal2, wb2⟩
        | _, _ =>
          let entry := fillAssetMetadataFromTx tx { base with totalSupply := supply }
          let wb2 := st.wb ++ [(regKey ctrlOut, packAssetRegistryEntry entry)]
          .ok ⟨cm, aff, atx, bal2, wb2⟩

/-! ### Phase 2: v11 ASSET_TRANSFER -/

/-- Input scan of a v11: find the controller (first tagged input), sum
the values of non-controller asset inputs, and extend the affected set
with each relevant input address (paired with the controller found so
far).  `i` is the input index into `ta.inputs`. -/
def scanV11Inputs (env : Env) (taMap : List (List Nat × TxAddresses))
    (ctrlMap : List (List Char × CtrlInfo)) (ta? : Option TxAddresses) :
    List Vin → Nat → Option (List Nat) → Int → List (List Nat × List Nat) →
    Option (List Nat) × Int × List (List Nat × List Nat)
  | [], _, ctl, total, aff => (ctl, total, aff)
  | vin :: rest, i, ctl, total, aff =>
    if vin.txid = [] then scanV11Inputs env taMap ctrlMap ta? rest (i + 1) ctl total aff
    else
      match resolveInputCtrl env taMap ctrlMap vin.txid vin.vout with
      | none => scanV11Inputs env taMap ctrlMap ta? rest (i + 1) ctl total aff
      | some ci =>
        if ci.controller = [] then
          scanV11Inputs env taMap ctrlMap ta? rest (i + 1) ctl total aff
        else
          let ctl1 := if ctl = none then some ci.controller else ctl
          let total1 :=
            if ci.isController then total
            else
              total + (match ta? with
                | some ta => if h : i < ta.inputs.length then
                    (ta.inputs.get ⟨i, h⟩).valueSat else 0
                | none => 0)
          let aff1 := match ta? with
            | some ta =>
              if h : i < ta.inputs.length then
                addAffected aff (ta.inputs.get ⟨i, h⟩).addrDesc (ctl1.getD [])
              else aff
            | none => aff
          scanV11Inputs env taMap ctrlMap ta? rest (i + 1) ctl1 total1 aff1

/-- Fill loop of a v11: walk the outputs in order; before each output,
stop when the running sum has reached the asset total; otherwise tag the
output, record it in the in-flight map and the filled index list, add
its address to the affected set, and accumulate its value. -/
def fillOutputs (taMap : List (List Nat × TxAddresses)) (ta? : Option TxAddresses)
    (txid : List Char) (btxID resolved : List Nat) (total : Int) :
    List Vout → Nat → Int → RunSt → List Int → RunSt × List Int
  | [], _, _, st, acc => (st, acc)
  | v :: rest, i, filled, st, acc =>
    if total ≤ filled then (st, acc)
    else
      let bal' := tagUtxoController taMap st.balances btxID (Int.ofNat i) resolved false
      let cm' := (opKey txid i, CtrlInfo.mk resolved false) :: st.ctrlMap
      let acc' := acc ++ [Int.ofNat i]
      let aff' := match ta? with
        | some ta =>
          if h : i < ta.outputs.length then
            addAffected st.affected (ta.outputs.get ⟨i, h⟩).addrDesc resolved
          else st.affected
        | none => st.affected
      fillOutputs taMap ta? txid btxID resolved total rest (i + 1)
        (filled + v.valueSat)
        { st with balances := bal', ctrlMap := cm', affected := aff' } acc'

/-- One v11 transaction of phase 2 (skip unless version 11): scan the
inputs, skip when no controller was found or the asset total is zero,
resolve the controller through the registry, fill the outputs and
append the history entry. -/
def processV11Tx (env : Env) (taMap : List (List Nat × TxAddresses))
    (st : RunSt) (tx : Tx) : Except GoErr RunSt :=
  if tx.version ≠ 11 then .ok st
  else
    match env.chainP.packTxid tx.txid with
    | none => .error .err
    | some btxID =>
      let ta? := alookup taMap btxID
      let scan := scanV11Inputs env taMap st.ctrlMap ta? tx.vin 0 none 0 st.affected
      match scan.1 with
      | none => .ok { st with affected := scan.2.2 }
      | some ctl =>
        if scan.2.1 = 0 then .ok { st with affected := scan.2.2 }
        else
          match ResolveCurrentController env.db ctl with
          | .error e => .error e
          | .ok resolved =>
            let fr := fillOutputs taMap ta? tx.txid btxID resolved scan.2.1
              tx.vout 0 0 { st with affected := scan.2.2 } []
            .ok { fr.1 with assetTxs := fr.1.assetTxs ++ [⟨resolved, btxID, fr.2⟩] }

/-! ### Phases 1 and 2 over a block -/

def initSt (balances : List (List Nat × AddrBalance)) : RunSt :=
  ⟨[], [], [], balances, []⟩

/-- Phases 1 and 2 of processAssetsCoordinateType: all v10 transactions
in block order, then all v11 transactions in block order. -/
def runPhases12 (env : Env) (block : Block)
    (taMap : List (List Nat × TxAddresses))
    (balances : List (List Nat × AddrBalance)) : Except GoErr RunSt := do
  let st1 ← block.txs.foldlM (processV10Tx env taMap) (initSt balances)
  block.txs.foldlM (processV11Tx env taMap) st1

/-! ### Phase 3a: per-address asset balances -/

/-- Balance recomputation loop: sum the values of the address's live
UTXOs whose controller bytes match (the loop tests `u.Vout >= 0` and
controller equality only). -/
def computeAssetBal (utxos : List Utxo) (ctl : List Nat) : Int :=
  utxos.foldl (fun acc u =>
    if 0 ≤ u.vout ∧ u.controller = ctl then acc + u.valueSat else acc) 0

/-- Staged record for one affected (address, controller) pair: recompute
the balance from live UTXOs, carry forward txCount and sentSat from the
stored record (read errors ignored). -/
def aabForPair (db : PointDb) (balances : List (List Nat × AddrBalance))
    (pair : List Nat × List Nat) : Except GoErr AddrAssetBalance := do
  let assetBal := match alookup balances pair.1 with
    | some bal => computeAssetBal bal.utxos pair.2
    | none => 0
  let existing? ← match GetAddrAssetBalance db pair.1 pair.2 with
    | .error .panik => .error GoErr.panik
    | .error .err => .ok none
    | .ok o => .ok o
  pure (match existing? with
    | some ex => ⟨(ex.txs + 1) % 2 ^ 32, assetBal, ex.sentSat⟩
    | none => ⟨1, assetBal, 0⟩)

/-- Phase 3a: stage one balance put per affected pair. -/
def phase3a (env : Env) (st : RunSt) : Except GoErr RunSt := do
  let wb' ← st.affected.foldlM (fun wb pair => do
    let aab ← aabForPair env.db st.balances pair
    pure (wb ++ [(makeAddrAssetKey pair.1 pair.2, packAddrAssetBalance aab)])) st.wb
  pure { st with wb := wb' }

/-! ### Phase 3b: history appends -/

/-- appendToCF: read the key from disk (not from the batch); append the
record to the stored bytes when present, else put the record alone. -/
def appendToCF (db : PointDb) (wb : WB) (key val : List Nat) : WB :=
  match db.get key with
  | .ok (some ex) => wb ++ [(key, ex ++ val)]
  | _ => wb ++ [(key, val)]

/-- History writes of one accumulated entry: the global append, then the
per-address appends for each distinct output address listed by the
entry's indexes and each distinct input address. -/
def historyWrites (db : PointDb) (taMap : List (List Nat × TxAddresses))
    (height : Nat) (wb : WB) (e : AssetTxEntry) : WB :=
  let val := packAssetTxEntry e.btxID e.indexes
  let wb1 := appendToCF db wb (makeGlobalAssetTxKey e.ctrl height) val
  match alookup taMap e.btxID with
  | none => wb1
  | some ta =>
    let step := fun (acc : WB × List (List Nat)) (ad : List Nat) =>
      if ad ≠ [] ∧ ad ∉ acc.2 then
        (appendToCF db acc.1 (makeAddrAssetTxKey ad e.ctrl height) val, acc.2 ++ [ad])
      else acc
    let afterOut := e.indexes.foldl (fun acc idx =>
      if idx < (ta.outputs.length : Int) then
        step acc (ta.outputs.getD idx.toNat default).addrDesc
      else acc) (wb1, [])
    (ta.inputs.foldl (fun acc inp => step acc inp.addrDesc) afterOut).1

/-- Phase 3b: history writes for every accumulated entry, in order. -/
def phase3b (env : Env) (taMap : List (List Nat × TxAddresses))
    (height : Nat) (st : RunSt) : RunSt :=
  { st with wb := st.assetTxs.foldl (historyWrites env.db taMap height) st.wb }

/-- processAssetsCoordinateType: phases 1 and 2 (tagging, registry) then
phase 3 (balance puts and history appends); returns the final state
whose `wb` is the staged write batch. -/
def processAssetsCoordinateType (env : Env) (block : Block)
    (taMap : List (List Nat × TxAddresses))
    (balances : List (List Nat × AddrBalance)) : Except GoErr RunSt := do
  let st ← runPhases12 env block taMap balances
  let st3 ← phase3a env st
  pure (phase3b env taMap block.height st3)

/-- Value a write batch commits for a key: the last put wins. -/
def committedValue (wb : WB) (key : List Nat) : Option (List Nat) :=
  ((wb.filter (fun kv => kv.1 = key)).getLast?).map (fun kv => kv.2)

/-- The (key, record) pairs one entry's history writes append, in
order: the global key, then the per-address keys for the deduplicated
output and input addresses.  Mirrors historyWrites step for step,
collecting each appendToCF call instead of performing it; the theorem
historyWrites_eq_appends proves it exact. -/
def hwAppends (taMap : List (List Nat × TxAddresses)) (height : Nat)
    (e : AssetTxEntry) : List (List Nat × List Nat) :=
  let val := packAssetTxEntry e.btxID e.indexes
  let base := [(makeGlobalAssetTxKey e.ctrl height, val)]
  match alookup taMap e.btxID with
  | none => base
  | some ta =>
    let step := fun (acc : List (List Nat × List Nat) × List (List Nat)) (ad : List Nat) =>
      if ad ≠ [] ∧ ad ∉ acc.2 then
        (acc.1 ++ [(makeAddrAssetTxKey ad e.ctrl height, val)], acc.2 ++ [ad])
      else acc
    let afterOut := e.indexes.foldl (fun acc idx =>
      if idx < (ta.outputs.length : Int) then
        step acc (ta.outputs.getD idx.toNat default).addrDesc
      else acc) (base, [])
    (ta.inputs.foldl (fun acc inp => step acc inp.addrDesc) afterOut).1

/-! ### Range iteration.

The iterator over the default column family is modelled on an
association list of (key, value) pairs that the theorems require to be
strictly key-sorted; Seek positions at the first key not below the seek
key (dropWhile on a sorted list), Next advances, and the read loops
break on the first key that fails their condition (takeWhile). -/

/-- Entries a reader visits: seek to `startKey`, then take entries while
the prefix matches and the key does not exceed `stopKey`. -/
def scanRange (store : List (List Nat × List Nat)) (startKey stopKey pfx : List Nat) :
    List (List Nat × List Nat) :=
  (store.dropWhile (fun kv => byteLt kv.1 startKey)).takeWhile
    (fun kv => pfx.isPrefixOf kv.1 && byteLe kv.1 stopKey)

structure AddrAssetInfo where
  controller : List Nat
  balance : AddrAssetBalance
deriving DecidableEq

/-- GetAddrDescAssets: prefix scan under "aa:" ++ addrDesc; the bytes
after the prefix are returned as the controller; undecodable (empty)
values are skipped; a malformed value panics. -/
def GetAddrDescAssets (store : List (List Nat × List Nat)) (addrDesc : List Nat) :
    Except GoErr (List AddrAssetInfo) :=
  let pfx := aaPfx ++ addrDesc
  let scanned := (store.dropWhile (fun kv => byteLt kv.1 pfx)).takeWhile
    (fun kv => pfx.isPrefixOf kv.1)
  scanned.foldlM (fun acc kv =>
    match unpackAddrAssetBalance kv.2 with
    | none => .error GoErr.panik
    | some none => .ok acc
    | some (some ab) => .ok (acc ++ [⟨kv.1.drop pfx.length, ab⟩])) []

/-- Calls a history reader makes for one visited entry: the height from
the trailing four key bytes, and one call per record of the value. -/
def entryCalls (p : ChainP) (kv : List Nat × List Nat) :
    List (List Char × Nat × List Int) :=
  let height := unpackDescHeight (kv.1.drop (kv.1.length - 4))
  (parseValue p kv.2).map (fun r => (r.1, height, r.2))

/-- GetAssetTransactions, modelled as the list of callback invocations
`(txid, height, indexes)` it makes for a callback that never stops and
never fails (UnpackTxid is total for the chain parsers in scope). -/
def GetAssetTransactionsCalls (p : ChainP) (store : List (List Nat × List Nat))
    (controller : List Nat) (lower higher : Nat) :
    List (List Char × Nat × List Int) :=
  let pfx := gtPfx ++ controller
  (scanRange store (pfx ++ packDescHeight higher) (pfx ++ packDescHeight lower)
    pfx).flatMap (entryCalls p)

/-- GetAddrDescAssetTransactions, modelled like
`GetAssetTransactionsCalls` with the per-address prefix. -/
def GetAddrDescAssetTransactionsCalls (p : ChainP)
    (store : List (List Nat × List Nat)) (addrDesc controller : List Nat)
    (lower higher : Nat) : List (List Char × Nat × List Int) :=
  let pfx := axPfx ++ addrDesc ++ controller
  (scanRange store (pfx ++ packDescHeight higher) (pfx ++ packDescHeight lower)
    pfx).flatMap (entryCalls p)

/-! ### Specification-side definitions used to state the claims -/

/-- Digit accumulation after the last colon, as described by the claim:
decimal digits update the uint32 accumulator, everything else is
ignored. -/
def digitAccum (rest : List Char) : Nat :=
  rest.foldl
    (fun v c => if '0' ≤ c ∧ c ≤ '9' then (v * 10 + (c.toNat - 48)) % 2 ^ 32 else v) 0

/-- Sum of the values of the live UTXOs carrying a controller, as the
phase-3a loop computes it (no isController filter). -/
def liveCtlSum (utxos : List Utxo) (ctl : List Nat) : Int :=
  ((utxos.filter (fun u => decide (0 ≤ u.vout ∧ u.controller = ctl))).map
    Utxo.valueSat).sum

/-- Sum of the values of the live non-controller UTXOs carrying a
controller — the quantity the claim says `balanceSat` equals. -/
def claimBalanceSat (utxos : List Utxo) (ctl : List Nat) : Int :=
  ((utxos.filter (fun u =>
    decide (0 ≤ u.vout ∧ u.controller = ctl ∧ u.isController = false))).map
    Utxo.valueSat).sum

/-- UTXO list of an address in the in-memory balances map (empty when
the address is absent). -/
def balUtxos (balances : List (List Nat × AddrBalance)) (a : List Nat) : List Utxo :=
  match alookup balances a with
  | some bal => bal.utxos
  | none => []

/-- Prefix sum of the first `k` output values. -/
def psum (vals : List Int) (k : Nat) : Int := (vals.take k).sum

/-- Number of outputs the v11 fill loop tags, starting from a given
running sum. -/
def fillCount (total : Int) : Int → List Int → Nat
  | _, [] => 0
  | filled, v :: vs => if total ≤ filled then 0 else 1 + fillCount total (filled + v) vs

/-- One proper redirect step of the registry: defined exactly when the
entry at `cur` is a redirect to a different identity. -/
def redirectStep (db : PointDb) (cur : List Nat) : Option (List Nat) :=
  match GetAssetRegistryEntry db cur with
  | .ok (some e) =>
    if e.isRedirect = true ∧ e.currentController ≠ cur then some e.currentController
    else none
  | _ => none

/-- The identity visited after `i` proper redirect steps (stationary
once no proper redirect applies). -/
def chainAt (db : PointDb) (c : List Nat) : Nat → List Nat
  | 0 => c
  | i + 1 =>
    match redirectStep db (chainAt db c i) with
    | some nxt => nxt
    | none => chainAt db c i

/-- Bytes stored on disk for a key before the block (empty when missing
or unreadable), the base every history append starts from. -/
def dbPart (db : PointDb) (k : List Nat) : List Nat :=
  match db.get k with
  | .ok (some ex) => ex
  | _ => []

/-- A stored global history write (key built by makeGlobalAssetTxKey). -/
structure GtWrite where
  ctrl : List Nat
  height : Nat
  val : List Nat
deriving DecidableEq

def gtStore (ws : List GtWrite) : List (List Nat × List Nat) :=
  ws.map (fun w => (makeGlobalAssetTxKey w.ctrl w.height, w.val))

/-- A stored per-address history write (key built by
makeAddrAssetTxKey). -/
structure AxWrite where
  addr : List Nat
  ctrl : List Nat
  height : Nat
  val : List Nat
deriving DecidableEq

def axStore (ws : List AxWrite) : List (List Nat × List Nat) :=
  ws.map (fun w => (makeAddrAssetTxKey w.addr w.ctrl w.height, w.val))

/-- A stored per-address balance write (key built by makeAddrAssetKey)
together with the balance its value bytes decode to. -/
structure AaWrite where
  addr : List Nat
  ctrl : List Nat
  val : List Nat
  bal : AddrAssetBalance
deriving DecidableEq

def aaStore (ws : List AaWrite) : List (List Nat × List Nat) :=
  ws.map (fun w => (makeAddrAssetKey w.addr w.ctrl, w.val))

/-- Strict key-sortedness of an iteration store. -/
def sortedByKey (store : List (List Nat × List Nat)) : Prop :=
  store.Pairwise (fun x y => byteLt x.1 y.1 = true)

/-- Heights of a list of history callback invocations. -/
def callHeights (calls : List (List Char × Nat × List Int)) : List Nat :=
  calls.map (fun c => c.2.1)

/-! ### Concrete environments for witnesses and counterexamples -/

/-- Toy chain parser: two-character txids packed as their code points. -/
def toyP : ChainP :=
  ⟨2, fun s => if s.length = 2 then some (s.map Char.toNat) else none,
   fun b => b.map Char.ofNat⟩

/-- Point store with no entries and no errors. -/
def dbEmpty : PointDb := ⟨fun _ => .ok none, fun _ => none, fun _ => none⟩

/-- Point store whose every point read fails. -/
def dbErrAll : PointDb := ⟨fun _ => .error (), fun _ => none, fun _ => none⟩

/-- Registry forming the two-cycle [1] → [2] → [1]. -/
def dbCyc : PointDb :=
  ⟨fun k =>
    if k = regKey [1] then .ok (some (packAssetRegistryEntry ⟨[], [], 0, 0, 0, [2], true⟩))
    else if k = regKey [2] then .ok (some (packAssetRegistryEntry ⟨[], [], 0, 0, 0, [1], true⟩))
    else .ok none,
   fun _ => none, fun _ => none⟩

/-- Scenario for C1: one v10 whose controller coin (output 0, value 5)
and supply coin (output 1, value 100) both pay address [170]. -/
def addrA : List Nat := [170]
def txC1 : Tx := ⟨['t', '1'], 10, [], [⟨5⟩, ⟨100⟩], none⟩
def blockC1 : Block := ⟨77, [txC1]⟩
def t1b : List Nat := [116, 49]
def taMapC1 : List (List Nat × TxAddresses) :=
  [(t1b, ⟨[], [⟨addrA, 5⟩, ⟨addrA, 100⟩]⟩)]
def balC1 : List (List Nat × AddrBalance) :=
  [(addrA, ⟨[⟨t1b, 0, 5, [], false⟩, ⟨t1b, 1, 100, [], false⟩]⟩)]
def envC1 : Env := ⟨toyP, dbEmpty⟩

/-- Scenario for C2: two v11 transactions in one block, each spending a
distinct on-disk UTXO tagged with the same controller [9,9,0]. -/
def cC2 : List Nat := [9, 9, 0]
def addrX : List Nat := [1]
def addrY : List Nat := [2]
def addrB : List Nat := [3]
def p1b : List Nat := [112, 49]
def p2b : List Nat := [112, 50]
def t2b : List Nat := [116, 50]
def dbC2 : PointDb :=
  ⟨fun _ => .ok none,
   fun b => if b = p1b then some ⟨[], [⟨addrX, 10⟩]⟩
            else if b = p2b then some ⟨[], [⟨addrY, 20⟩]⟩ else none,
   fun a => if a = addrX then some ⟨[⟨p1b, 0, 10, cC2, false⟩]⟩
            else if a = addrY then some ⟨[⟨p2b, 0, 20, cC2, false⟩]⟩ else none⟩
def envC2 : Env := ⟨toyP, dbC2⟩
def txT1 : Tx := ⟨['t', '1'], 11, [⟨['p', '1'], 0⟩], [⟨10⟩], none⟩
def txT2 : Tx := ⟨['t', '2'], 11, [⟨['p', '2'], 0⟩], [⟨20⟩], none⟩
def blockC2 : Block := ⟨7, [txT1, txT2]⟩
def taMapC2 : List (List Nat × TxAddresses) :=
  [(t1b, ⟨[⟨addrX, 10⟩], [⟨addrB, 10⟩]⟩), (t2b, ⟨[⟨addrY, 20⟩], [⟨addrB, 20⟩]⟩)]
def gtKeyC2 : List Nat := makeGlobalAssetTxKey cC2 7
def axKeyC2 : List Nat := makeAddrAssetTxKey addrB cC2 7

/-- Scenario for C4: a v10 mint-more spending the controller coin of the
registered asset at [5,6,7]. -/
def oldC : List Nat := [5, 6, 7]
def addrM : List Nat := [9]
def oldE : AssetRegistryEntry := ⟨['G'], ['H'], 4, 2, 100, oldC, false⟩
def p9b : List Nat := [112, 57]
def dbC4 : PointDb :=
  ⟨fun k => if k = regKey oldC then .ok (some (packAssetRegistryEntry oldE)) else .ok none,
   fun b => if b = p9b then some ⟨[], [⟨addrM, 0⟩]⟩ else none,
   fun a => if a = addrM then some ⟨[⟨p9b, 0, 0, oldC, true⟩]⟩ else none⟩
def envC4 : Env := ⟨toyP, dbC4⟩
def txC4 : Tx := ⟨['t', '3'], 10, [⟨['p', '9'], 0⟩], [⟨0⟩, ⟨50⟩], none⟩

/-- Scenario for C3 (the spec's S3): a v11 with asset total 100 and
output values 70, 20, 30. -/
def txS3 : Tx := ⟨['t', '4'], 11, [⟨['p', '1'], 0⟩], [⟨70⟩, ⟨20⟩, ⟨30⟩], none⟩
def t4b : List Nat := [116, 52]
def taMapS3 : List (List Nat × TxAddresses) :=
  [(t4b, ⟨[⟨addrX, 100⟩], [⟨addrB, 70⟩, ⟨addrB, 20⟩, ⟨addrB, 30⟩]⟩)]
def dbS3 : PointDb :=
  ⟨fun _ => .ok none,
   fun b => if b = p1b then some ⟨[], [⟨addrX, 100⟩]⟩ else none,
   fun a => if a = addrX then some ⟨[⟨p1b, 0, 100, cC2, false⟩]⟩ else none⟩
def envS3 : Env := ⟨toyP, dbS3⟩

/-- Store for the C5 counterexample: one history entry of controller
[2, 255] whose key also extends the scan prefix of controller [2]. -/
def storeC5 : List (List Nat × List Nat) :=
  [(makeGlobalAssetTxKey [2, 255] 4294967295, packAssetTxEntry [88, 89] [0])]

/-- Writes for the C5 amended witness: two heights of controller [5] and
one of controller [6]. -/
def c5w1 : GtWrite := ⟨[5], 20, packAssetTxEntry [88, 89] [0, 1]⟩
def c5w2 : GtWrite := ⟨[5], 10, packAssetTxEntry [90, 91] [2]⟩
def c5w3 : GtWrite := ⟨[6], 30, packAssetTxEntry [92, 93] [0]⟩
def c5ws : List GtWrite := [c5w1, c5w2, c5w3]

/-- Writes for the per-address conjunct of the C5 amended witness. -/
def c5aw1 : AxWrite := ⟨[4], [5], 20, packAssetTxEntry [88, 89] [0, 1]⟩
def c5aw2 : AxWrite := ⟨[4], [5], 10, packAssetTxEntry [90, 91] [2]⟩
def c5aws : List AxWrite := [c5aw1, c5aw2]

/-- Store for the C7 counterexample: a balance stored for address [1,2]
under controller [3]. -/
def balCE : AddrAssetBalance := ⟨3, 44, 5⟩
def storeC7 : List (List Nat × List Nat) :=
  [(makeAddrAssetKey [1, 2] [3], packAddrAssetBalance balCE)]

/-- Writes for the C7 amended witness: two assets of address [8]. -/
def c7w1 : AaWrite := ⟨[8], [1], packAddrAssetBalance ⟨1, 10, 0⟩, ⟨1, 10, 0⟩⟩
def c7w2 : AaWrite := ⟨[8], [2], packAddrAssetBalance ⟨2, 20, 3⟩, ⟨2, 20, 3⟩⟩
def c7ws : List AaWrite := [c7w1, c7w2]

/-- State after phases 1 and 2 of the C1 scenario. -/
def st12C1 : RunSt := (runPhases12 envC1 blockC1 taMapC1 balC1).toOption.getD (initSt [])

/-- State after phase 3a of the C1 scenario. -/
def st3aC1 : RunSt := (phase3a envC1 st12C1).toOption.getD (initSt [])

/-- State after phases 1 and 2 of the C2 scenario. -/
def st12C2 : RunSt := (runPhases12 envC2 blockC2 taMapC2 []).toOption.getD (initSt [])

/-- State after phase 3a of the C2 scenario. -/
def st3aC2 : RunSt := (phase3a envC2 st12C2).toOption.getD (initSt [])

/-- Full propagator result of the C2 scenario. -/
def stC2run : RunSt :=
  (processAssetsCoordinateType envC2 blockC2 taMapC2 []).toOption.getD (initSt [])

/-! ### Theorems -/

/-- Claim C8 (code-bug evidence): on truncated input the decoders do not
return an error — they perform an out-of-range slice access (a Go
panic, modelled as `none`): `unpackAssetRegistryEntry` on a normal
entry whose ticker length 10 exceeds the remaining 0 bytes, and
`unpackAddrAssetBalance` on a 1-byte value whose balance bigint is
missing. -/
theorem claimC8_decoders_panic :
    unpackAssetRegistryEntry [0, 10] = none ∧ unpackAddrAssetBalance [5] = none := by
  exact ⟨by decide, by decide⟩

/-- A storage error on the registry point read propagates. -/
theorem getRegistry_err (db : PointDb) (c : List Nat)
    (h : db.get (regKey c) = .error ()) : GetAssetRegistryEntry db c = .error .err := by
  simp [GetAssetRegistryEntry, h]

/-- One resolution step on a registry read error returns the current
identity. -/
theorem resolveAux_step_err (db : PointDb) (cur : List Nat) (fuel : Nat)
    (h : GetAssetRegistryEntry db cur = .error .err) :
    resolveAux db cur (fuel + 1) = (.ok cur, 1) := by
  simp [resolveAux, h]

/-- Claim C9, amended: the point get `GetAssetRegistryEntry` propagates
storage read errors and returns an empty result without error on a
missing entry; `ResolveCurrentController`, whose Go signature has no
error result, swallows a read error and returns the current identity
exactly as it does for a missing entry. -/
theorem claimC9_amended (db : PointDb) (c : List Nat) :
    (db.get (regKey c) = .error () → GetAssetRegistryEntry db c = .error .err) ∧
    (db.get (regKey c) = .ok none → GetAssetRegistryEntry db c = .ok none) ∧
    (db.get (regKey c) = .error () → ResolveCurrentController db c = .ok c) := by
  refine ⟨fun h => getRegistry_err db c h, fun h => ?_, fun h => ?_⟩
  · simp [GetAssetRegistryEntry, h]
  · have h1 := getRegistry_err db c h
    have h2 : (100 : Nat) = 99 + 1 := rfl
    rw [ResolveCurrentController, h2, resolveAux_step_err db c 99 h1]

/-- Witness for claim C9 (amended): a concrete erroring store and a
concrete missing-entry store. -/
theorem claimC9_amended_witness :
    GetAssetRegistryEntry dbErrAll [7] = .error .err ∧
    GetAssetRegistryEntry dbEmpty [7] = .ok none ∧
    ResolveCurrentController dbErrAll [7] = .ok [7] := by
  refine ⟨(claimC9_amended dbErrAll [7]).1 rfl, (claimC9_amended dbEmpty [7]).2.1 rfl,
    (claimC9_amended dbErrAll [7]).2.2 rfl⟩

/-- Counterexample for claim C9 as stated: a storage read error inside
`ResolveCurrentController` does not propagate to the caller — the
function returns the current identity, indistinguishable from the
missing-entry result on an empty store, even though the underlying
point read fails. -/
theorem claimC9_counterexample :
    ResolveCurrentController dbErrAll [7] = .ok [7] ∧
    ResolveCurrentController dbEmpty [7] = .ok [7] ∧
    dbErrAll.get (regKey [7]) = .error () ∧
    ¬ ResolveCurrentController dbErrAll [7] = .error .err := by
  refine ⟨by decide, by decide, by decide, by decide⟩

/-- The lookup counter of the resolution loop never exceeds the fuel. -/
theorem resolveAux_count_le (db : PointDb) :
    ∀ fuel cur, (resolveAux db cur fuel).2 ≤ fuel := by
  intro fuel
  induction fuel with
  | zero => intro cur; simp [resolveAux]
  | succ n ih =>
    intro cur
    cases h : GetAssetRegistryEntry db cur with
    | error e => cases e <;> simp [resolveAux, h]
    | ok o =>
      cases o with
      | none => simp [resolveAux, h]
      | some e =>
        cases hb : e.isRedirect with
        | false => simp [resolveAux, h, hb]
        | true =>
          by_cases hc : e.currentController = cur
          · simp [resolveAux, h, hb, hc]
          · have h2 : resolveAux db cur (n + 1) =
                ((resolveAux db e.currentController n).1,
                 (resolveAux db e.currentController n).2 + 1) := by
              simp [resolveAux, h, hb, hc]
            rw [h2]
            have := ih e.currentController
            simp only []
            omega

/-- Shifting the redirect chain by its first step. -/
theorem chainAt_shift (db : PointDb) (c c1 : List Nat)
    (h : redirectStep db c = some c1) :
    ∀ i, chainAt db c (i + 1) = chainAt db c1 i := by
  intro i
  induction i with
  | zero => simp [chainAt, h]
  | succ n ih =>
    have hunf : chainAt db c (n + 1 + 1) =
        (match redirectStep db (chainAt db c (n + 1)) with
          | some nxt => nxt
          | none => chainAt db c (n + 1)) := rfl
    rw [hunf, ih]
    rfl

/-- When every step of the chain is a proper redirect, the loop spends
all its fuel and returns the identity the chain reaches. -/
theorem resolveAux_all_redirect (db : PointDb) :
    ∀ fuel c, (∀ i < fuel, (redirectStep db (chainAt db c i)).isSome) →
      resolveAux db c fuel = (.ok (chainAt db c fuel), fuel) := by
  intro fuel
  induction fuel with
  | zero => intro c _; simp [resolveAux, chainAt]
  | succ n ih =>
    intro c h
    have h0 : (redirectStep db (chainAt db c 0)).isSome := h 0 (by omega)
    rw [show chainAt db c 0 = c from rfl] at h0
    obtain ⟨c1, hc1⟩ := Option.isSome_iff_exists.mp h0
    cases hg : GetAssetRegistryEntry db c with
    | error e => simp [redirectStep, hg] at hc1
    | ok o =>
      cases o with
      | none => simp [redirectStep, hg] at hc1
      | some e =>
        simp only [redirectStep, hg] at hc1
        by_cases hcond : e.isRedirect = true ∧ e.currentController ≠ c
        · rw [if_pos hcond] at hc1
          have hc1' : e.currentController = c1 := Option.some.inj hc1
          have hstep : redirectStep db c = some c1 := by
            simp only [redirectStep, hg]
            rw [if_pos hcond, hc1']
          have hshift := chainAt_shift db c c1 hstep
          have hrest : ∀ i < n, (redirectStep db (chainAt db c1 i)).isSome := by
            intro i hi
            have := h (i + 1) (by omega)
            rwa [hshift i] at this
          have hih := ih c1 hrest
          simp only [resolveAux, hg]
          have hred : ¬ e.isRedirect = false := by
            intro hf; rw [hf] at hcond; exact Bool.false_ne_true hcond.1
          have hne : ¬ e.currentController = c := hcond.2
          rw [if_neg hred, if_neg hne, hc1', hih, hshift n]
        · rw [if_neg hcond] at hc1; cases hc1

/-- Claim C6 (confirmed): for every store and controller the resolution
performs at most 100 registry lookups; and when the chain is a proper
redirect at each of the 100 steps (so the hop limit is exceeded, as in
any cycle of length at least 2), the function returns the last visited
identity — the 100th element of the chain — as an ordinary terminal
result. -/
theorem claimC6_resolve_bounded (db : PointDb) (c : List Nat) :
    resolveLookups db c ≤ 100 ∧
    ((∀ i < 100, (redirectStep db (chainAt db c i)).isSome) →
      ResolveCurrentController db c = .ok (chainAt db c 100) ∧
        resolveLookups db c = 100) := by
  constructor
  · exact resolveAux_count_le db 100 c
  · intro h
    have := resolveAux_all_redirect db 100 c h
    exact ⟨by rw [ResolveCurrentController, this], by rw [resolveLookups, this]⟩

/-- Witness for claim C6: the two-cycle [1] → [2] → [1]; resolution
stops after exactly 100 lookups and returns identity [1]. -/
theorem claimC6_witness :
    resolveLookups dbCyc [1] ≤ 100 ∧
    (ResolveCurrentController dbCyc [1] = .ok (chainAt dbCyc [1] 100) ∧
      resolveLookups dbCyc [1] = 100) := by
  exact ⟨(claimC6_resolve_bounded dbCyc [1]).1,
    (claimC6_resolve_bounded dbCyc [1]).2 (by decide)⟩

/-- A string without a colon scans to index -1. -/
theorem lastColon_nocolon (s : List Char) (h : ':' ∉ s) : lastColonIdx s = -1 := by
  induction s with
  | nil => rfl
  | cons c rest ih =>
    have hc : ¬ c = ':' := by
      intro hc; exact h (by rw [hc]; exact List.mem_cons_self _ _)
    have hr : ':' ∉ rest := fun hm => h (List.mem_cons_of_mem _ hm)
    simp [lastColonIdx, ih hr, hc]

/-- The last colon of `txid ++ ':' :: rest` (with no colon in `rest`)
sits at index `txid.length`. -/
theorem lastColon_append (txid rest : List Char) (h : ':' ∉ rest) :
    lastColonIdx (txid ++ ':' :: rest) = (txid.length : Int) := by
  induction txid with
  | nil => simp [lastColonIdx, lastColon_nocolon rest h]
  | cons c t ih =>
    have hnn : (0 : Int) ≤ lastColonIdx (t ++ ':' :: rest) := by rw [ih]; positivity
    have hunf : lastColonIdx (c :: (t ++ ':' :: rest)) =
        (if 0 ≤ lastColonIdx (t ++ ':' :: rest) then lastColonIdx (t ++ ':' :: rest) + 1
         else if c = ':' then 0 else -1) := rfl
    rw [show (c :: t) ++ ':' :: rest = c :: (t ++ ':' :: rest) from rfl, hunf,
      if_pos hnn, ih, List.length_cons]
    omega

/-- Claim C10 (confirmed): ParseControllerString returns empty bytes and
no error when the input has no colon or its last colon is at index 0;
otherwise the text before the last colon is the txid, the vout
accumulates exactly the decimal digits after the last colon (other
characters ignored), and the packed controller outpoint is returned. -/
theorem claimC10_parse_controller (p : ChainP) (s rest txid : List Char) :
    (':' ∉ s → ParseControllerString p s = .ok none) ∧
    (':' ∉ rest → ParseControllerString p (':' :: rest) = .ok none) ∧
    (':' ∉ rest → txid ≠ [] →
      ParseControllerString p (txid ++ ':' :: rest) =
        match packControllerOutpoint p txid (digitAccum rest) with
        | none => .error ()
        | some b => .ok (some b)) := by
  refine ⟨fun h => ?_, fun h => ?_, fun h hne => ?_⟩
  · rw [ParseControllerString, lastColon_nocolon s h]
    rfl
  · have h0 : lastColonIdx (':' :: rest) = 0 := by
      simp [lastColonIdx, lastColon_nocolon rest h]
    rw [ParseControllerString, h0]
    rfl
  · have hidx : lastColonIdx (txid ++ ':' :: rest) = (txid.length : Int) :=
      lastColon_append txid rest h
    have hpos : ¬ (txid.length : Int) ≤ 0 := by
      have : 0 < txid.length := List.length_pos.mpr hne
      omega
    have htake : (txid ++ ':' :: rest).take ((txid.length : Int)).toNat = txid := by
      simp [List.take_left]
    have hdrop : (txid ++ ':' :: rest).drop (((txid.length : Int)).toNat + 1) = rest := by
      have : txid ++ ':' :: rest = (txid ++ [':']) ++ rest := by simp
      rw [this]
      have hlen : ((txid.length : Int)).toNat + 1 = (txid ++ [':']).length := by simp
      rw [hlen, List.drop_left]
    rw [ParseControllerString, hidx, if_neg hpos]
    simp only [htake, hdrop]
    rfl

/-- Witness for claim C10: all three branches evaluated on toy inputs;
"t1:1a2" yields vout 12 and "t1:" yields vout 0. -/
theorem claimC10_witness :
    ParseControllerString toyP ['a', 'b'] = .ok none ∧
    ParseControllerString toyP (':' :: ['x']) = .ok none ∧
    ParseControllerString toyP (['t', '1'] ++ ':' :: ['1', 'a', '2']) =
      .ok (some [116, 49, 12]) ∧
    ParseControllerString toyP (['t', '1'] ++ ':' :: []) = .ok (some [116, 49, 0]) := by
  refine ⟨(claimC10_parse_controller toyP ['a', 'b'] [] []).1 (by decide),
    (claimC10_parse_controller toyP [] ['x'] []).2.1 (by decide), ?_, ?_⟩
  · have h := (claimC10_parse_controller toyP [] ['1', 'a', '2'] ['t', '1']).2.2
      (by decide) (by decide)
    exact h.trans (by decide)
  · have h := (claimC10_parse_controller toyP [] [] ['t', '1']).2.2
      (by decide) (by decide)
    exact h.trans (by decide)

/-- Prefix sum through one more output. -/
theorem psum_cons (v : Int) (vs : List Int) (j : Nat) :
    psum (v :: vs) (j + 1) = v + psum vs j := by
  simp [psum]

/-- Characterization of the fill count: it never exceeds the output
count, every tagged output was tagged while the running sum was still
below the total, and when the loop stopped early the prefix sum through
the tagged outputs has reached the total. -/
theorem fillCount_spec (total : Int) :
    ∀ (vals : List Int) (filled : Int),
      fillCount total filled vals ≤ vals.length ∧
      (∀ j < fillCount total filled vals, filled + psum vals j < total) ∧
      (fillCount total filled vals < vals.length →
        total ≤ filled + psum vals (fillCount total filled vals)) := by
  intro vals
  induction vals with
  | nil =>
    intro filled
    refine ⟨by simp [fillCount], ?_, by simp [fillCount]⟩
    intro j hj
    simp [fillCount] at hj
  | cons v vs ih =>
    intro filled
    by_cases hstop : total ≤ filled
    · refine ⟨by simp [fillCount, hstop], ?_, ?_⟩
      · intro j hj; simp [fillCount, hstop] at hj
      · intro _
        have h0 : psum (v :: vs) (fillCount total filled (v :: vs)) = 0 := by
          simp [fillCount, hstop, psum]
        rw [h0]
        omega
    · have hrec := ih (filled + v)
      have hunf : fillCount total filled (v :: vs) = 1 + fillCount total (filled + v) vs := by
        simp [fillCount, hstop]
      refine ⟨?_, ?_, ?_⟩
      · rw [hunf]; simp; omega
      · intro j hj
        rw [hunf] at hj
        cases j with
        | zero => simpa [psum] using hstop
        | succ j' =>
          rw [psum_cons]
          have := hrec.2.1 j' (by omega)
          omega
      · intro hlt
        rw [hunf] at hlt ⊢
        have hm : fillCount total (filled + v) vs < vs.length := by
          simp only [List.length_cons] at hlt; omega
        have := hrec.2.2 hm
        rw [Nat.add_comm 1 _, psum_cons]
        omega

/-- The fill loop appends exactly the consecutive indexes counted by
`fillCount` to its accumulator. -/
theorem fillOutputs_indexes (taMap : List (List Nat × TxAddresses))
    (ta? : Option TxAddresses) (txid : List Char) (btxID resolved : List Nat)
    (total : Int) :
    ∀ (vouts : List Vout) (i : Nat) (filled : Int) (st : RunSt) (acc : List Int),
      (fillOutputs taMap ta? txid btxID resolved total vouts i filled st acc).2 =
        acc ++ (List.range' i (fillCount total filled (vouts.map Vout.valueSat))).map
          Int.ofNat := by
  intro vouts
  induction vouts with
  | nil => intro i filled st acc; simp [fillOutputs, fillCount]
  | cons v vs ih =>
    intro i filled st acc
    by_cases hstop : total ≤ filled
    · simp [fillOutputs, fillCount, hstop]
    · simp only [fillOutputs, if_neg hstop]
      rw [ih]
      have hunf : fillCount total filled ((v :: vs).map Vout.valueSat) =
          fillCount total (filled + v.valueSat) (vs.map Vout.valueSat) + 1 := by
        simp [fillCount, hstop]; omega
      rw [hunf, List.range'_succ]
      simp

/-- The fill loop only adds entries to the in-flight controller map. -/
theorem fillOutputs_ctrlMap_mono (taMap : List (List Nat × TxAddresses))
    (ta? : Option TxAddresses) (txid : List Char) (btxID resolved : List Nat)
    (total : Int) :
    ∀ (vouts : List Vout) (i : Nat) (filled : Int) (st : RunSt) (acc : List Int)
      (p : List Char × CtrlInfo), p ∈ st.ctrlMap →
      p ∈ (fillOutputs taMap ta? txid btxID resolved total vouts i filled st acc).1.ctrlMap := by
  intro vouts
  induction vouts with
  | nil => intro i filled st acc p hp; simp only [fillOutputs]; exact hp
  | cons v vs ih =>
    intro i filled st acc p hp
    by_cases hstop : total ≤ filled
    · simpa [fillOutputs, hstop] using hp
    · simp only [fillOutputs, if_neg hstop]
      exact ih _ _ _ _ _ (List.mem_cons_of_mem _ hp)

/-- Every index the fill loop tags is recorded in the in-flight map as
(resolved, isController=false). -/
theorem fillOutputs_ctrlMap_mem (taMap : List (List Nat × TxAddresses))
    (ta? : Option TxAddresses) (txid : List Char) (btxID resolved : List Nat)
    (total : Int) :
    ∀ (vouts : List Vout) (i : Nat) (filled : Int) (st : RunSt) (acc : List Int)
      (j : Nat), i ≤ j → j < i + fillCount total filled (vouts.map Vout.valueSat) →
      (opKey txid j, CtrlInfo.mk resolved false) ∈
        (fillOutputs taMap ta? txid btxID resolved total vouts i filled st acc).1.ctrlMap := by
  intro vouts
  induction vouts with
  | nil => intro i filled st acc j h1 h2; simp [fillCount] at h2; omega
  | cons v vs ih =>
    intro i filled st acc j h1 h2
    by_cases hstop : total ≤ filled
    · simp [fillCount, hstop] at h2; omega
    · simp only [fillOutputs, if_neg hstop]
      by_cases hj : j = i
      · subst hj
        exact fillOutputs_ctrlMap_mono taMap ta? txid btxID resolved total vs (j + 1) _ _ _
          (opKey txid j, CtrlInfo.mk resolved false) (List.mem_cons_self _ _)
      · have hcount : fillCount total filled ((v :: vs).map Vout.valueSat) =
            fillCount total (filled + v.valueSat) (vs.map Vout.valueSat) + 1 := by
          simp [fillCount, hstop]; omega
        rw [hcount] at h2
        exact ih (i + 1) _ _ _ j (by omega) (by omega)

/-- The fill loop does not change the accumulated history entries. -/
theorem fillOutputs_assetTxs (taMap : List (List Nat × TxAddresses))
    (ta? : Option TxAddresses) (txid : List Char) (btxID resolved : List Nat)
    (total : Int) :
    ∀ (vouts : List Vout) (i : Nat) (filled : Int) (st : RunSt) (acc : List Int),
      (fillOutputs taMap ta? txid btxID resolved total vouts i filled st acc).1.assetTxs =
        st.assetTxs := by
  intro vouts
  induction vouts with
  | nil => intro i filled st acc; simp [fillOutputs]
  | cons v vs ih =>
    intro i filled st acc
    by_cases hstop : total ≤ filled
    · simp [fillOutputs, hstop]
    · simp only [fillOutputs, if_neg hstop]
      rw [ih]

/-- Claim C3 (confirmed): for a v11 transfer whose input scan found a
controller and a positive asset total, the filled indexes are exactly
the prefix 0..m-1 of the outputs, where the loop stops at the first
index whose prefix sum of output values reaches the total (all outputs
tagged when the total is never reached); each tagged output is recorded
in the in-flight map as (resolved, isController=false), and the
accumulated history record lists exactly those indexes. -/
theorem claimC3_fill_rule (env : Env) (taMap : List (List Nat × TxAddresses))
    (st : RunSt) (tx : Tx) (btxID ctl : List Nat) (total : Int)
    (aff1 : List (List Nat × List Nat)) (resolved : List Nat)
    (hv : tx.version = 11)
    (hpack : env.chainP.packTxid tx.txid = some btxID)
    (hscan : scanV11Inputs env taMap st.ctrlMap (alookup taMap btxID) tx.vin 0
      none 0 st.affected = (some ctl, total, aff1))
    (hpos : 0 < total)
    (hres : ResolveCurrentController env.db ctl = .ok resolved) :
    ∃ st', processV11Tx env taMap st tx = .ok st' ∧
      st'.assetTxs = st.assetTxs ++
        [⟨resolved, btxID,
          (List.range (fillCount total 0 (tx.vout.map Vout.valueSat))).map Int.ofNat⟩] ∧
      fillCount total 0 (tx.vout.map Vout.valueSat) ≤ tx.vout.length ∧
      (∀ j < fillCount total 0 (tx.vout.map Vout.valueSat),
        psum (tx.vout.map Vout.valueSat) j < total) ∧
      (fillCount total 0 (tx.vout.map Vout.valueSat) < tx.vout.length →
        total ≤ psum (tx.vout.map Vout.valueSat)
          (fillCount total 0 (tx.vout.map Vout.valueSat))) ∧
      (∀ j < fillCount total 0 (tx.vout.map Vout.valueSat),
        (opKey tx.txid j, CtrlInfo.mk resolved false) ∈ st'.ctrlMap) := by
  have hnz : ¬ total = 0 := by omega
  have hvne : ¬ tx.version ≠ 11 := by simp [hv]
  have hrun : processV11Tx env taMap st tx =
      .ok { (fillOutputs taMap (alookup taMap btxID) tx.txid btxID resolved total
              tx.vout 0 0 { st with affected := aff1 } []).1 with
            assetTxs :=
              (fillOutputs taMap (alookup taMap btxID) tx.txid btxID resolved total
                tx.vout 0 0 { st with affected := aff1 } []).1.assetTxs ++
              [⟨resolved, btxID,
                (fillOutputs taMap (alookup taMap btxID) tx.txid btxID resolved total
                  tx.vout 0 0 { st with affected := aff1 } []).2⟩] } := by
    rw [processV11Tx, if_neg hvne]
    simp only [hpack, hscan, hres, hnz, if_false]
  refine ⟨_, hrun, ?_, ?_, ?_, ?_, ?_⟩
  · simp only []
    rw [fillOutputs_assetTxs, fillOutputs_indexes]
    simp [List.range_eq_range']
  · exact (fillCount_spec total (tx.vout.map Vout.valueSat) 0).1.trans (by simp)
  · intro j hj
    have := (fillCount_spec total (tx.vout.map Vout.valueSat) 0).2.1 j hj
    omega
  · intro hlt
    have := (fillCount_spec total (tx.vout.map Vout.valueSat) 0).2.2 (by simpa using hlt)
    omega
  · intro j hj
    simp only []
    exact fillOutputs_ctrlMap_mem taMap (alookup taMap btxID) tx.txid btxID resolved
      total tx.vout 0 0 { st with affected := aff1 } [] j (by omega) (by omega)

/-- Witness for claim C3: the spec's S3 scenario — asset total 100 and
output values 70, 20, 30; the fill stops after tagging indexes
0, 1 and 2. -/
theorem claimC3_witness :
    ∃ st', processV11Tx envS3 taMapS3 (initSt []) txS3 = .ok st' ∧
      st'.assetTxs = (initSt []).assetTxs ++
        [⟨cC2, t4b,
          (List.range (fillCount 100 0 (txS3.vout.map Vout.valueSat))).map Int.ofNat⟩] ∧
      fillCount 100 0 (txS3.vout.map Vout.valueSat) ≤ txS3.vout.length ∧
      (∀ j < fillCount 100 0 (txS3.vout.map Vout.valueSat),
        psum (txS3.vout.map Vout.valueSat) j < 100) ∧
      (fillCount 100 0 (txS3.vout.map Vout.valueSat) < txS3.vout.length →
        100 ≤ psum (txS3.vout.map Vout.valueSat)
          (fillCount 100 0 (txS3.vout.map Vout.valueSat))) ∧
      (∀ j < fillCount 100 0 (txS3.vout.map Vout.valueSat),
        (opKey txS3.txid j, CtrlInfo.mk cC2 false) ∈ st'.ctrlMap) :=
  claimC3_fill_rule envS3 taMapS3 (initSt []) txS3 t4b cC2 100 [(addrX, cC2)] cC2
    (by decide) (by decide) (by decide) (by decide) (by decide)

/-- Claim C4 (confirmed): a v10 mint-more (at least two outputs, an
input resolving with isController=true to an old controller different
from the new one) whose old registry entry is a normal entry stages,
at the new controller, an entry copying ticker, headline, precision and
assetType with totalSupply = old.totalSupply + Vout[1].ValueSat, and
stages a redirect from the old controller to the new one; with a
non-negative supply value the totalSupply therefore never decreases. -/
theorem claimC4_mint_more (env : Env) (taMap : List (List Nat × TxAddresses))
    (st : RunSt) (tx : Tx) (btxID ctrlOut oc : List Nat) (oldE : AssetRegistryEntry)
    (hv : tx.version = 10) (hlen : 2 ≤ tx.vout.length)
    (hpack : env.chainP.packTxid tx.txid = some btxID)
    (hctl : packControllerOutpoint env.chainP tx.txid 0 = some ctrlOut)
    (hold : findOldController env taMap st.ctrlMap tx.vin = some oc)
    (hne : oc ≠ ctrlOut)
    (hget : GetAssetRegistryEntry env.db oc = .ok (some oldE))
    (hnorm : oldE.isRedirect = false) :
    ∃ st', processV10Tx env taMap st tx = .ok st' ∧
      st'.wb = st.wb ++
        [(regKey oc, packAssetRegistryEntry ⟨[], [], 0, 0, 0, ctrlOut, true⟩),
         (regKey ctrlOut, packAssetRegistryEntry
           ⟨oldE.ticker, oldE.headline, oldE.precision, oldE.assetType,
            oldE.totalSupply + (tx.vout.getD 1 ⟨0⟩).valueSat, ctrlOut, false⟩)] ∧
      (0 ≤ (tx.vout.getD 1 ⟨0⟩).valueSat →
        oldE.totalSupply ≤ oldE.totalSupply + (tx.vout.getD 1 ⟨0⟩).valueSat) := by
  have hvne : ¬ (tx.version ≠ 10 ∨ tx.vout.length < 2) := by
    simp [hv]; omega
  have hign : registryGetIgnErr env.db oc = .ok (some oldE) := by
    rw [registryGetIgnErr, hget]
  have hrun : processV10Tx env taMap st tx =
      .ok ⟨(opKey tx.txid 1, CtrlInfo.mk ctrlOut false) ::
             (opKey tx.txid 0, CtrlInfo.mk ctrlOut true) :: st.ctrlMap,
           (match alookup taMap btxID with
             | none => st.affected
             | some ta => affectedV10 ta ctrlOut st.affected),
           st.assetTxs ++ [⟨ctrlOut, btxID, [0, 1]⟩],
           tagUtxoController taMap
             (tagUtxoController taMap st.balances btxID 0 ctrlOut true)
             btxID 1 ctrlOut false,
           st.wb ++
             [(regKey oc, packAssetRegistryEntry ⟨[], [], 0, 0, 0, ctrlOut, true⟩),
              (regKey ctrlOut, packAssetRegistryEntry
                ⟨oldE.ticker, oldE.headline, oldE.precision, oldE.assetType,
                 oldE.totalSupply + (tx.vout.getD 1 ⟨0⟩).valueSat, ctrlOut, false⟩)]⟩ := by
    rw [processV10Tx, if_neg hvne]
    simp only [hpack, hctl, hold, hne, ne_eq, not_false_eq_true, decide_True, hign,
      hnorm, bind, Except.bind, pure, Except.pure, if_true, List.append_assoc,
      List.singleton_append]
  exact ⟨_, hrun, rfl, fun h => by omega⟩

/-- Witness for claim C4: the concrete mint-more of asset GOLD-like
entry (supply 100, precision 4) re-issued with 50 more units. -/
theorem claimC4_witness :
    ∃ st', processV10Tx envC4 [] (initSt []) txC4 = .ok st' ∧
      st'.wb = (initSt []).wb ++
        [(regKey oldC, packAssetRegistryEntry ⟨[], [], 0, 0, 0, [116, 51, 0], true⟩),
         (regKey [116, 51, 0], packAssetRegistryEntry
           ⟨oldE.ticker, oldE.headline, oldE.precision, oldE.assetType,
            oldE.totalSupply + (txC4.vout.getD 1 ⟨0⟩).valueSat, [116, 51, 0], false⟩)] ∧
      (0 ≤ (txC4.vout.getD 1 ⟨0⟩).valueSat →
        oldE.totalSupply ≤ oldE.totalSupply + (txC4.vout.getD 1 ⟨0⟩).valueSat) :=
  claimC4_mint_more envC4 [] (initSt []) txC4 [116, 51] [116, 51, 0] oldC oldE
    (by decide) (by decide) (by decide) (by decide) (by decide) (by decide)
    (by decide) (by decide)

/-- The phase-3a balance loop computes the filter-sum of the live UTXOs
carrying the controller. -/
theorem computeAssetBal_eq_liveCtlSum (c : List Nat) :
    ∀ utxos : List Utxo, computeAssetBal utxos c = liveCtlSum utxos c := by
  have key : ∀ (l : List Utxo) (z : Int),
      l.foldl (fun acc u =>
        if 0 ≤ u.vout ∧ u.controller = c then acc + u.valueSat else acc) z =
      z + liveCtlSum l c := by
    intro l
    induction l with
    | nil => intro z; simp [liveCtlSum]
    | cons u l ih =>
      intro z
      by_cases hp : 0 ≤ u.vout ∧ u.controller = c
      · simp [ih, liveCtlSum, List.filter_cons, if_pos hp, hp.1, hp.2]
        ring
      · simp [ih, liveCtlSum, List.filter_cons, if_neg hp, hp]
  intro utxos
  have := key utxos 0
  simpa [computeAssetBal] using this

/-- Every successful phase-3a record carries, as its balance, the sum of
the live matching UTXO values of its pair. -/
theorem aabForPair_balanceSat (db : PointDb) (balances : List (List Nat × AddrBalance))
    (pair : List Nat × List Nat) (aab : AddrAssetBalance)
    (h : aabForPair db balances pair = .ok aab) :
    aab = ⟨aab.txs, liveCtlSum (balUtxos balances pair.1) pair.2, aab.sentSat⟩ := by
  have hbal : (match alookup balances pair.1 with
      | some bal => computeAssetBal bal.utxos pair.2
      | none => 0) = liveCtlSum (balUtxos balances pair.1) pair.2 := by
    cases hl : alookup balances pair.1 with
    | none => simp [balUtxos, hl, liveCtlSum]
    | some bal => simp [balUtxos, hl, computeAssetBal_eq_liveCtlSum]
  cases hg : GetAddrAssetBalance db pair.1 pair.2 with
  | error e =>
    cases e with
    | err =>
      rw [aabForPair, hg] at h
      simp only [bind, Except.bind, pure, Except.pure] at h
      cases h
      simp [hbal]
    | panik =>
      rw [aabForPair, hg] at h
      simp only [bind, Except.bind, pure, Except.pure] at h
      cases h
  | ok o =>
    cases o with
    | none =>
      rw [aabForPair, hg] at h
      simp only [bind, Except.bind, pure, Except.pure] at h
      cases h
      simp [hbal]
    | some ex =>
      rw [aabForPair, hg] at h
      simp only [bind, Except.bind, pure, Except.pure] at h
      cases h
      simp [hbal]

/-- The phase-3a fold only appends to the write batch. -/
theorem phase3a_fold_mono (db : PointDb) (balances : List (List Nat × AddrBalance)) :
    ∀ (l : List (List Nat × List Nat)) (wb0 wbf : WB),
      l.foldlM (fun wb pair => do
        let aab ← aabForPair db balances pair
        pure (wb ++ [(makeAddrAssetKey pair.1 pair.2, packAddrAssetBalance aab)]))
        wb0 = .ok wbf →
      ∀ x ∈ wb0, x ∈ wbf := by
  intro l
  induction l with
  | nil =>
    intro wb0 wbf h x hx
    simp only [List.foldlM_nil, pure, Except.pure] at h
    cases h
    exact hx
  | cons q l ih =>
    intro wb0 wbf h x hx
    rw [List.foldlM_cons] at h
    cases hq : aabForPair db balances q with
    | error e => rw [hq] at h; simp [bind, Except.bind] at h
    | ok aab =>
      rw [hq] at h
      simp only [bind, Except.bind, pure, Except.pure] at h
      exact ih _ _ h x (List.mem_append_left _ hx)

/-- Every affected pair the phase-3a fold processes contributes its
staged put to the final write batch. -/
theorem phase3a_fold_mem (db : PointDb) (balances : List (List Nat × AddrBalance)) :
    ∀ (l : List (List Nat × List Nat)) (wb0 wbf : WB),
      l.foldlM (fun wb pair => do
        let aab ← aabForPair db balances pair
        pure (wb ++ [(makeAddrAssetKey pair.1 pair.2, packAddrAssetBalance aab)]))
        wb0 = .ok wbf →
      ∀ p ∈ l, ∃ aab, aabForPair db balances p = .ok aab ∧
        (makeAddrAssetKey p.1 p.2, packAddrAssetBalance aab) ∈ wbf := by
  intro l
  induction l with
  | nil => intro wb0 wbf _ p hp; cases hp
  | cons q l ih =>
    intro wb0 wbf h p hp
    rw [List.foldlM_cons] at h
    cases hq : aabForPair db balances q with
    | error e => rw [hq] at h; simp [bind, Except.bind] at h
    | ok aab =>
      rw [hq] at h
      simp only [bind, Except.bind, pure, Except.pure] at h
      cases hp with
      | head =>
        refine ⟨aab, hq, ?_⟩
        exact phase3a_fold_mono db balances l _ _ h _
          (List.mem_append_right _ (List.mem_singleton.mpr rfl))
      | tail _ hp' => exact ih _ _ h p hp'

/-- Claim C1, amended: for every connected block and every
(address, controller) pair in the affected set, phase 3a stages a
balance record whose balanceSat is the sum of ValueSat over that
address's currently-live UTXOs whose controller bytes match —
regardless of the isController flag, so the controller coin's own value
is included (the loop does not test isController). -/
theorem claimC1_amended (env : Env) (block : Block)
    (taMap : List (List Nat × TxAddresses)) (balances : List (List Nat × AddrBalance))
    (st st3 : RunSt) (a c : List Nat)
    (_h12 : runPhases12 env block taMap balances = .ok st)
    (h3 : phase3a env st = .ok st3)
    (hmem : (a, c) ∈ st.affected) :
    ∃ n s, (makeAddrAssetKey a c,
      packAddrAssetBalance ⟨n, liveCtlSum (balUtxos st.balances a) c, s⟩) ∈ st3.wb := by
  rw [phase3a] at h3
  cases hf : st.affected.foldlM (fun wb pair => do
      let aab ← aabForPair env.db st.balances pair
      pure (wb ++ [(makeAddrAssetKey pair.1 pair.2, packAddrAssetBalance aab)]))
      st.wb with
  | error e => rw [hf] at h3; simp [bind, Except.bind] at h3
  | ok wb' =>
    rw [hf] at h3
    simp only [bind, Except.bind, pure, Except.pure] at h3
    obtain ⟨aab, hok, hmem'⟩ := phase3a_fold_mem env.db st.balances st.affected _ _ hf
      (a, c) hmem
    have hshape := aabForPair_balanceSat env.db st.balances (a, c) aab hok
    refine ⟨aab.txs, aab.sentSat, ?_⟩
    rw [← hshape]
    cases h3
    exact hmem'

/-- Witness for claim C1 (amended): in the C1 scenario the staged
balance for (address [170], the new controller) is present. -/
theorem claimC1_amended_witness :
    ∃ n s, (makeAddrAssetKey addrA [116, 49, 0],
      packAddrAssetBalance ⟨n, liveCtlSum (balUtxos st12C1.balances addrA) [116, 49, 0],
        s⟩) ∈ st3aC1.wb :=
  claimC1_amended envC1 blockC1 taMapC1 balC1 st12C1 st3aC1 addrA [116, 49, 0]
    (by decide) (by decide) (by decide)

/-- Counterexample for claim C1 as stated: in the C1 scenario the
controller coin (isController=true, value 5) contributes to the staged
balanceSat — the put holds 105 while the claim's sum over
isController=false UTXOs is 100. -/
theorem claimC1_counterexample :
    (addrA, [116, 49, 0]) ∈ st12C1.affected ∧
    committedValue st3aC1.wb (makeAddrAssetKey addrA [116, 49, 0]) =
      some (packAddrAssetBalance ⟨1, 105, 0⟩) ∧
    liveCtlSum (balUtxos st12C1.balances addrA) [116, 49, 0] = 105 ∧
    claimBalanceSat (balUtxos st12C1.balances addrA) [116, 49, 0] = 100 ∧
    packAddrAssetBalance ⟨1, 105, 0⟩ ≠ packAddrAssetBalance ⟨1, 100, 0⟩ := by
  refine ⟨by decide, by decide, by decide, by decide, by decide⟩

/-- Appending a put to the batch: the last-put-wins value of its key
becomes the appended value, every other key is unchanged. -/
theorem committedValue_append_single (wb : WB) (k k' v : List Nat) :
    committedValue (wb ++ [(k', v)]) k =
      if k' = k then some v else committedValue wb k := by
  by_cases h : k' = k
  · subst h
    simp [committedValue, List.filter_append]
  · simp [committedValue, List.filter_append, h]

/-- appendToCF always stages the pre-block stored bytes followed by the
record. -/
theorem appendToCF_eq (db : PointDb) (wb : WB) (key val : List Nat) :
    appendToCF db wb key val = wb ++ [(key, dbPart db key ++ val)] := by
  rw [appendToCF, dbPart]
  cases h : db.get key with
  | error e => simp
  | ok o => cases o <;> simp

/-- Commit effect of one appendToCF. -/
theorem committedValue_appendToCF (db : PointDb) (wb : WB) (key val k : List Nat) :
    committedValue (appendToCF db wb key val) k =
      if key = k then some (dbPart db key ++ val) else committedValue wb k := by
  rw [appendToCF_eq, committedValue_append_single]

/-- Folds whose steps do not touch a key leave its committed value
unchanged. -/
theorem committedValue_foldl_preserved {α : Type} (k : List Nat)
    (g : (WB × List (List Nat)) → α → (WB × List (List Nat)))
    (hg : ∀ acc x, committedValue ((g acc x).1) k = committedValue acc.1 k) :
    ∀ (l : List α) (acc : WB × List (List Nat)),
      committedValue ((l.foldl g acc).1) k = committedValue acc.1 k := by
  intro l
  induction l with
  | nil => intro acc; rfl
  | cons x l ih => intro acc; rw [List.foldl_cons, ih, hg]

/-- Per-address history keys never collide with a global history key. -/
theorem axKey_ne_gtKey (ad c' : List Nat) (h1 : Nat) (c : List Nat) (h2 : Nat) :
    makeAddrAssetTxKey ad c' h1 ≠ makeGlobalAssetTxKey c h2 := by
  intro h
  simp [makeAddrAssetTxKey, makeGlobalAssetTxKey, axPfx, gtPfx] at h

/-- Global history keys of one height are injective in the controller. -/
theorem gtKey_inj (a b : List Nat) (h : Nat) :
    makeGlobalAssetTxKey a h = makeGlobalAssetTxKey b h ↔ a = b := by
  constructor
  · intro he
    simp only [makeGlobalAssetTxKey, List.append_assoc] at he
    have := List.append_cancel_left he
    exact List.append_cancel_right this
  · intro he; rw [he]

/-- Commit effect of the history writes of one entry on a global key:
the entry's own key receives the pre-block bytes plus this entry's
record; every other global key is untouched (the per-address appends
live under "ax:"). -/
theorem committedValue_historyWrites (db : PointDb)
    (taMap : List (List Nat × TxAddresses)) (height : Nat) (e : AssetTxEntry)
    (c : List Nat) (wb : WB) :
    committedValue (historyWrites db taMap height wb e) (makeGlobalAssetTxKey c height) =
      if e.ctrl = c then
        some (dbPart db (makeGlobalAssetTxKey c height) ++
          packAssetTxEntry e.btxID e.indexes)
      else committedValue wb (makeGlobalAssetTxKey c height) := by
  have hbase : committedValue
      (appendToCF db wb (makeGlobalAssetTxKey e.ctrl height)
        (packAssetTxEntry e.btxID e.indexes)) (makeGlobalAssetTxKey c height) =
      if e.ctrl = c then
        some (dbPart db (makeGlobalAssetTxKey c height) ++
          packAssetTxEntry e.btxID e.indexes)
      else committedValue wb (makeGlobalAssetTxKey c height) := by
    rw [committedValue_appendToCF]
    by_cases hc : e.ctrl = c
    · rw [if_pos ((gtKey_inj e.ctrl c height).mpr hc), if_pos hc, hc]
    · rw [if_neg (fun hk => hc ((gtKey_inj e.ctrl c height).mp hk)), if_neg hc]
  rw [historyWrites]
  cases halk : alookup taMap e.btxID with
  | none => exact hbase
  | some ta =>
    have hout := committedValue_foldl_preserved (makeGlobalAssetTxKey c height)
      (fun acc idx =>
        if idx < (ta.outputs.length : Int) then
          (fun (acc : WB × List (List Nat)) (ad : List Nat) =>
            if ad ≠ [] ∧ ad ∉ acc.2 then
              (appendToCF db acc.1 (makeAddrAssetTxKey ad e.ctrl height)
                (packAssetTxEntry e.btxID e.indexes), acc.2 ++ [ad])
            else acc) acc (ta.outputs.getD idx.toNat default).addrDesc
        else acc)
      (by
        intro acc x
        simp only []
        by_cases h1 : x < (ta.outputs.length : Int)
        · rw [if_pos h1]
          by_cases h2 : (ta.outputs.getD x.toNat default).addrDesc ≠ [] ∧
              (ta.outputs.getD x.toNat default).addrDesc ∉ acc.2
          · rw [if_pos h2]
            simp only []
            rw [committedValue_appendToCF,
              if_neg (axKey_ne_gtKey _ e.ctrl height c height)]
          · rw [if_neg h2]
        · rw [if_neg h1])
    have hin := committedValue_foldl_preserved (makeGlobalAssetTxKey c height)
      (fun acc inp =>
        (fun (acc : WB × List (List Nat)) (ad : List Nat) =>
          if ad ≠ [] ∧ ad ∉ acc.2 then
            (appendToCF db acc.1 (makeAddrAssetTxKey ad e.ctrl height)
              (packAssetTxEntry e.btxID e.indexes), acc.2 ++ [ad])
          else acc) acc (TxInput.addrDesc inp))
      (by
        intro acc x
        simp only []
        by_cases h2 : (TxInput.addrDesc x) ≠ [] ∧ (TxInput.addrDesc x) ∉ acc.2
        · rw [if_pos h2]
          simp only []
          rw [committedValue_appendToCF,
            if_neg (axKey_ne_gtKey _ e.ctrl height c height)]
        · rw [if_neg h2])
    rw [hin, hout]
    exact hbase

/-- Prepending keeps a known last element. -/
theorem getLast?_cons_some {α : Type} (a x : α) (l : List α) (h : l.getLast? = some x) :
    (a :: l).getLast? = some x := by
  cases l with
  | nil => cases h
  | cons b t => rw [List.getLast?_cons_cons]; exact h

/-- Commit effect of the whole phase-3b fold on a global history key:
only the last accumulated entry of that controller survives, appended
to the pre-block stored bytes. -/
theorem committedValue_phase3b_fold (db : PointDb)
    (taMap : List (List Nat × TxAddresses)) (height : Nat) (c : List Nat) :
    ∀ (entries : List AssetTxEntry) (wb0 : WB),
      committedValue (entries.foldl (historyWrites db taMap height) wb0)
          (makeGlobalAssetTxKey c height) =
        match (entries.filter (fun e => decide (e.ctrl = c))).getLast? with
        | some e => some (dbPart db (makeGlobalAssetTxKey c height) ++
            packAssetTxEntry e.btxID e.indexes)
        | none => committedValue wb0 (makeGlobalAssetTxKey c height) := by
  intro entries
  induction entries with
  | nil => intro wb0; rfl
  | cons e rest ih =>
    intro wb0
    rw [List.foldl_cons, ih]
    by_cases he : e.ctrl = c
    · rw [List.filter_cons, if_pos (by simp [he])]
      cases hrest : (rest.filter (fun e => decide (e.ctrl = c))).getLast? with
      | some e' => rw [getLast?_cons_some _ _ _ hrest]
      | none =>
        have hnil : rest.filter (fun e => decide (e.ctrl = c)) = [] := by
          cases hfil : rest.filter (fun e => decide (e.ctrl = c)) with
          | nil => rfl
          | cons y t =>
            rw [hfil] at hrest
            exact absurd hrest (by simp [List.getLast?_concat, List.getLast?_eq_getLast])
        rw [hnil]
        simp only [List.getLast?_singleton]
        rw [committedValue_historyWrites, if_pos he]
    · rw [List.filter_cons, if_neg (by simp [he])]
      cases hrest : (rest.filter (fun e => decide (e.ctrl = c))).getLast? with
      | some e' => rfl
      | none =>
        rw [committedValue_historyWrites, if_neg he]

/-- Phase 3a changes only the write batch. -/
theorem phase3a_fields (env : Env) (st st3 : RunSt) (h : phase3a env st = .ok st3) :
    st3.assetTxs = st.assetTxs ∧ st3.balances = st.balances ∧
    st3.affected = st.affected ∧ st3.ctrlMap = st.ctrlMap := by
  rw [phase3a] at h
  cases hf : st.affected.foldlM (fun wb pair => do
      let aab ← aabForPair env.db st.balances pair
      pure (wb ++ [(makeAddrAssetKey pair.1 pair.2, packAddrAssetBalance aab)]))
      st.wb with
  | error e => rw [hf] at h; simp [bind, Except.bind] at h
  | ok wb' =>
    rw [hf] at h
    simp only [bind, Except.bind, pure, Except.pure] at h
    cases h
    exact ⟨rfl, rfl, rfl, rfl⟩

/-- A write-batch fold is simulated by an append-collecting fold: when
each step either leaves both accumulators alone or extends the batch by
exactly the disk-prefixed image of the pair the collector records, the
whole folds stay in that relation. -/
theorem hwFold_sim {α : Type} (db : PointDb) (wb : WB)
    (f : (WB × List (List Nat)) → α → (WB × List (List Nat)))
    (g : (List (List Nat × List Nat) × List (List Nat)) → α →
        (List (List Nat × List Nat) × List (List Nat)))
    (hfg : ∀ (p : WB × List (List Nat))
        (q : List (List Nat × List Nat) × List (List Nat)) (x : α),
      p.1 = wb ++ q.1.map (fun kv => (kv.1, dbPart db kv.1 ++ kv.2)) →
      p.2 = q.2 →
      (f p x).1 = wb ++ ((g q x).1.map (fun kv => (kv.1, dbPart db kv.1 ++ kv.2))) ∧
      (f p x).2 = (g q x).2) :
    ∀ (xs : List α) (p : WB × List (List Nat))
      (q : List (List Nat × List Nat) × List (List Nat)),
      p.1 = wb ++ q.1.map (fun kv => (kv.1, dbPart db kv.1 ++ kv.2)) →
      p.2 = q.2 →
      (xs.foldl f p).1 =
        wb ++ ((xs.foldl g q).1.map (fun kv => (kv.1, dbPart db kv.1 ++ kv.2))) ∧
      (xs.foldl f p).2 = (xs.foldl g q).2 := by
  intro xs
  induction xs with
  | nil => intro p q h1 h2; exact ⟨h1, h2⟩
  | cons x xs ih =>
    intro p q h1 h2
    rw [List.foldl_cons, List.foldl_cons]
    obtain ⟨h1', h2'⟩ := hfg p q x h1 h2
    exact ih (f p x) (g q x) h1' h2'

/-- The history writes of one entry are exactly the batch extended by
the collected appends, each prefixed with the bytes read from disk. -/
theorem historyWrites_eq_appends (db : PointDb)
    (taMap : List (List Nat × TxAddresses)) (height : Nat) (wb : WB)
    (e : AssetTxEntry) :
    historyWrites db taMap height wb e =
      wb ++ (hwAppends taMap height e).map
        (fun kv => (kv.1, dbPart db kv.1 ++ kv.2)) := by
  rw [historyWrites, hwAppends]
  cases halk : alookup taMap e.btxID with
  | none =>
    simp only []
    rw [appendToCF_eq]
    rfl
  | some ta =>
    have hbase : appendToCF db wb (makeGlobalAssetTxKey e.ctrl height)
        (packAssetTxEntry e.btxID e.indexes) =
        wb ++ ([(makeGlobalAssetTxKey e.ctrl height,
          packAssetTxEntry e.btxID e.indexes)]).map
          (fun kv => (kv.1, dbPart db kv.1 ++ kv.2)) := by
      rw [appendToCF_eq]
      rfl
    have hstep : ∀ (w : WB) (l : List (List Nat × List Nat)) (d : List (List Nat))
        (ad : List Nat),
        w = wb ++ l.map (fun kv => (kv.1, dbPart db kv.1 ++ kv.2)) →
        ((if ad ≠ [] ∧ ad ∉ d then
            (appendToCF db w (makeAddrAssetTxKey ad e.ctrl height)
              (packAssetTxEntry e.btxID e.indexes), d ++ [ad])
          else (w, d)).1 =
          wb ++ ((if ad ≠ [] ∧ ad ∉ d then
              (l ++ [(makeAddrAssetTxKey ad e.ctrl height,
                packAssetTxEntry e.btxID e.indexes)], d ++ [ad])
            else (l, d)).1.map (fun kv => (kv.1, dbPart db kv.1 ++ kv.2)))) ∧
        ((if ad ≠ [] ∧ ad ∉ d then
            (appendToCF db w (makeAddrAssetTxKey ad e.ctrl height)
              (packAssetTxEntry e.btxID e.indexes), d ++ [ad])
          else (w, d)).2 =
          (if ad ≠ [] ∧ ad ∉ d then
              (l ++ [(makeAddrAssetTxKey ad e.ctrl height,
                packAssetTxEntry e.btxID e.indexes)], d ++ [ad])
            else (l, d)).2) := by
      intro w l d ad hw
      by_cases hc : ad ≠ [] ∧ ad ∉ d
      · rw [if_pos hc, if_pos hc]
        refine ⟨?_, rfl⟩
        rw [appendToCF_eq, hw, List.map_append, List.append_assoc]
        rfl
      · rw [if_neg hc, if_neg hc]
        exact ⟨hw, rfl⟩
    have hout := hwFold_sim db wb
      (fun acc idx =>
        if idx < (ta.outputs.length : Int) then
          (fun (acc : WB × List (List Nat)) (ad : List Nat) =>
            if ad ≠ [] ∧ ad ∉ acc.2 then
              (appendToCF db acc.1 (makeAddrAssetTxKey ad e.ctrl height)
                (packAssetTxEntry e.btxID e.indexes), acc.2 ++ [ad])
            else acc) acc (ta.outputs.getD idx.toNat default).addrDesc
        else acc)
      (fun acc idx =>
        if idx < (ta.outputs.length : Int) then
          (fun (acc : List (List Nat × List Nat) × List (List Nat)) (ad : List Nat) =>
            if ad ≠ [] ∧ ad ∉ acc.2 then
              (acc.1 ++ [(makeAddrAssetTxKey ad e.ctrl height,
                packAssetTxEntry e.btxID e.indexes)], acc.2 ++ [ad])
            else acc) acc (ta.outputs.getD idx.toNat default).addrDesc
        else acc)
      (by
        intro p q x h1 h2
        obtain ⟨w, d⟩ := p
        obtain ⟨l, d2⟩ := q
        have h2' : d = d2 := h2
        subst h2'
        simp only []
        by_cases hx : x < (ta.outputs.length : Int)
        · rw [if_pos hx, if_pos hx]
          exact hstep w l d _ h1
        · rw [if_neg hx, if_neg hx]
          exact ⟨h1, rfl⟩)
      e.indexes
      (appendToCF db wb (makeGlobalAssetTxKey e.ctrl height)
        (packAssetTxEntry e.btxID e.indexes), [])
      ([(makeGlobalAssetTxKey e.ctrl height, packAssetTxEntry e.btxID e.indexes)],
        [])
      hbase rfl
    have hin := hwFold_sim db wb
      (fun acc inp =>
        (fun (acc : WB × List (List Nat)) (ad : List Nat) =>
          if ad ≠ [] ∧ ad ∉ acc.2 then
            (appendToCF db acc.1 (makeAddrAssetTxKey ad e.ctrl height)
              (packAssetTxEntry e.btxID e.indexes), acc.2 ++ [ad])
          else acc) acc (TxInput.addrDesc inp))
      (fun acc inp =>
        (fun (acc : List (List Nat × List Nat) × List (List Nat)) (ad : List Nat) =>
          if ad ≠ [] ∧ ad ∉ acc.2 then
            (acc.1 ++ [(makeAddrAssetTxKey ad e.ctrl height,
              packAssetTxEntry e.btxID e.indexes)], acc.2 ++ [ad])
          else acc) acc (TxInput.addrDesc inp))
      (by
        intro p q x h1 h2
        obtain ⟨w, d⟩ := p
        obtain ⟨l, d2⟩ := q
        have h2' : d = d2 := h2
        subst h2'
        exact hstep w l d _ h1)
      ta.inputs _ _ hout.1 hout.2
    exact hin.1

/-- The whole phase-3b fold is the starting batch extended by the
collected appends of every entry, in order. -/
theorem phase3b_fold_eq_appends (db : PointDb)
    (taMap : List (List Nat × TxAddresses)) (height : Nat) :
    ∀ (entries : List AssetTxEntry) (wb0 : WB),
      entries.foldl (historyWrites db taMap height) wb0 =
        wb0 ++ (entries.flatMap (hwAppends taMap height)).map
          (fun kv => (kv.1, dbPart db kv.1 ++ kv.2)) := by
  intro entries
  induction entries with
  | nil => intro wb0; simp
  | cons e rest ih =>
    intro wb0
    rw [List.foldl_cons, ih, historyWrites_eq_appends]
    simp [List.append_assoc]

/-- Commit effect of a batch of disk-prefixed appends at an arbitrary
key of either scope: the last append to that key wins, glued to the
bytes stored before the block; a key never appended keeps the base
batch's value. -/
theorem committedValue_wb_appends (db : PointDb) (K : List Nat) :
    ∀ (l : List (List Nat × List Nat)) (wb0 : WB),
      committedValue (wb0 ++ l.map (fun kv => (kv.1, dbPart db kv.1 ++ kv.2))) K =
        match (l.filter (fun kv => kv.1 = K)).getLast? with
        | some kv => some (dbPart db K ++ kv.2)
        | none => committedValue wb0 K := by
  intro l
  induction l with
  | nil => intro wb0; simp
  | cons kv rest ih =>
    intro wb0
    have hsplit : wb0 ++ ((kv :: rest).map
        (fun kv => (kv.1, dbPart db kv.1 ++ kv.2))) =
        (wb0 ++ [(kv.1, dbPart db kv.1 ++ kv.2)]) ++ rest.map
          (fun kv => (kv.1, dbPart db kv.1 ++ kv.2)) := by
      simp
    rw [hsplit, ih]
    by_cases hk : kv.1 = K
    · rw [List.filter_cons, if_pos (by simp [hk])]
      cases hrest : (rest.filter (fun kv => kv.1 = K)).getLast? with
      | some kv' => rw [getLast?_cons_some _ _ _ hrest]
      | none =>
        have hnil : rest.filter (fun kv => kv.1 = K) = [] := by
          cases hfil : rest.filter (fun kv => kv.1 = K) with
          | nil => rfl
          | cons y t =>
            rw [hfil] at hrest
            exact absurd hrest (by simp [List.getLast?_concat, List.getLast?_eq_getLast])
        rw [hnil]
        simp only [List.getLast?_singleton]
        rw [committedValue_append_single, if_pos hk, hk]
    · rw [List.filter_cons, if_neg (by simp [hk])]
      cases hrest : (rest.filter (fun kv => kv.1 = K)).getLast? with
      | some kv' => rfl
      | none =>
        rw [committedValue_append_single, if_neg hk]

/-- Claim C2, amended: when one or more history records are accumulated
for the same (scope, controller, height) key during a block — the
global "gt:" key as well as a per-address "ax:" key — the value the
block commits for that key is the pre-block stored bytes followed by
ONLY the last record appended to it during the block: appendToCF reads
the disk, not the in-flight batch, so each later append overwrites the
earlier ones instead of concatenating after them. -/
theorem claimC2_amended (env : Env) (block : Block)
    (taMap : List (List Nat × TxAddresses)) (balances : List (List Nat × AddrBalance))
    (st st3 : RunSt) (c : List Nat) (elast : AssetTxEntry)
    (ad : List Nat) (arec : List Nat × List Nat)
    (h12 : runPhases12 env block taMap balances = .ok st)
    (h3 : phase3a env st = .ok st3)
    (hlast : (st.assetTxs.filter (fun e => decide (e.ctrl = c))).getLast? = some elast)
    (hlastax : ((st.assetTxs.flatMap (hwAppends taMap block.height)).filter
        (fun kv => kv.1 = makeAddrAssetTxKey ad c block.height)).getLast? =
      some arec) :
    processAssetsCoordinateType env block taMap balances =
      .ok (phase3b env taMap block.height st3) ∧
    committedValue (phase3b env taMap block.height st3).wb
        (makeGlobalAssetTxKey c block.height) =
      some (dbPart env.db (makeGlobalAssetTxKey c block.height) ++
        packAssetTxEntry elast.btxID elast.indexes) ∧
    committedValue (phase3b env taMap block.height st3).wb
        (makeAddrAssetTxKey ad c block.height) =
      some (dbPart env.db (makeAddrAssetTxKey ad c block.height) ++ arec.2) := by
  refine ⟨?_, ?_, ?_⟩
  · rw [processAssetsCoordinateType, h12]
    simp only [bind, Except.bind, pure, Except.pure, h3]
  · rw [phase3b]
    simp only []
    rw [(phase3a_fields env st st3 h3).1, committedValue_phase3b_fold, hlast]
  · rw [phase3b]
    simp only []
    rw [(phase3a_fields env st st3 h3).1, phase3b_fold_eq_appends,
      committedValue_wb_appends, hlastax]

/-- Witness for claim C2 (amended): the C2 scenario commits, both for
the shared global key and for address [3]'s shared per-address key, the
pre-block bytes plus only the second record. -/
theorem claimC2_amended_witness :
    processAssetsCoordinateType envC2 blockC2 taMapC2 [] =
      .ok (phase3b envC2 taMapC2 blockC2.height st3aC2) ∧
    committedValue (phase3b envC2 taMapC2 blockC2.height st3aC2).wb
        (makeGlobalAssetTxKey cC2 blockC2.height) =
      some (dbPart envC2.db (makeGlobalAssetTxKey cC2 blockC2.height) ++
        packAssetTxEntry t2b [0]) ∧
    committedValue (phase3b envC2 taMapC2 blockC2.height st3aC2).wb
        (makeAddrAssetTxKey addrB cC2 blockC2.height) =
      some (dbPart envC2.db (makeAddrAssetTxKey addrB cC2 blockC2.height) ++
        (makeAddrAssetTxKey addrB cC2 7, packAssetTxEntry t2b [0]).2) :=
  claimC2_amended envC2 blockC2 taMapC2 [] st12C2 st3aC2 cC2 ⟨cC2, t2b, [0]⟩
    addrB (makeAddrAssetTxKey addrB cC2 7, packAssetTxEntry t2b [0])
    (by decide) (by decide) (by decide) (by decide)

/-- Counterexample for claim C2 as stated: the C2 block accumulates two
records under the same (global, controller, height) key and two records
under the same (per-address, controller, height) key for address [3],
in insertion order t1 then t2; yet each committed value holds only the
second record — the first is lost, not concatenated. -/
theorem claimC2_counterexample :
    st12C2.assetTxs = [⟨cC2, t1b, [0]⟩, ⟨cC2, t2b, [0]⟩] ∧
    committedValue stC2run.wb gtKeyC2 = some (packAssetTxEntry t2b [0]) ∧
    committedValue stC2run.wb gtKeyC2 ≠
      some (packAssetTxEntry t1b [0] ++ packAssetTxEntry t2b [0]) ∧
    (st12C2.assetTxs.flatMap (hwAppends taMapC2 7)).filter
        (fun kv => kv.1 = axKeyC2) =
      [(axKeyC2, packAssetTxEntry t1b [0]), (axKeyC2, packAssetTxEntry t2b [0])] ∧
    committedValue stC2run.wb axKeyC2 = some (packAssetTxEntry t2b [0]) ∧
    committedValue stC2run.wb axKeyC2 ≠
      some (packAssetTxEntry t1b [0] ++ packAssetTxEntry t2b [0]) := by
  refine ⟨by decide, by decide, by decide, by decide, by decide, by decide⟩

/-- byteLt is irreflexive. -/
theorem byteLt_irrefl : ∀ a : List Nat, byteLt a a = false := by
  intro a
  induction a with
  | nil => rfl
  | cons x xs ih => simp [byteLt, ih]

/-- byteLt is transitive. -/
theorem byteLt_trans : ∀ a b c : List Nat,
    byteLt a b = true → byteLt b c = true → byteLt a c = true := by
  intro a
  induction a with
  | nil =>
    intro b c hab hbc
    cases b with
    | nil => cases hab
    | cons y ys =>
      cases c with
      | nil => cases hbc
      | cons z zs => rfl
  | cons x xs ih =>
    intro b c hab hbc
    cases b with
    | nil => cases hab
    | cons y ys =>
      cases c with
      | nil => cases hbc
      | cons z zs =>
        simp only [byteLt] at hab hbc ⊢
        by_cases hxy : x < y
        · by_cases hyz : y < z
          · rw [if_pos (by omega)]
          · rw [if_neg hyz] at hbc
            by_cases hzy : z < y
            · rw [if_pos hzy] at hbc; cases hbc
            · have : y = z := by omega
              rw [if_pos (by omega)]
        · rw [if_neg hxy] at hab
          by_cases hyx : y < x
          · rw [if_pos hyx] at hab; cases hab
          · have hxyeq : x = y := by omega
            rw [if_neg hyx] at hab
            by_cases hyz : y < z
            · rw [if_pos (by omega)]
            · rw [if_neg hyz] at hbc
              by_cases hzy : z < y
              · rw [if_pos hzy] at hbc; cases hbc
              · have : y = z := by omega
                rw [if_neg hzy] at hbc
                rw [if_neg (by omega), if_neg (by omega)]
                exact ih ys zs hab hbc

/-- Keys that are neither above nor below each other are equal. -/
theorem byteLt_conn : ∀ a b : List Nat,
    byteLt a b = false → byteLt b a = false → a = b := by
  intro a
  induction a with
  | nil =>
    intro b hab _
    cases b with
    | nil => rfl
    | cons y ys => cases hab
  | cons x xs ih =>
    intro b hab hba
    cases b with
    | nil => cases hba
    | cons y ys =>
      simp only [byteLt] at hab hba
      by_cases hxy : x < y
      · rw [if_pos hxy] at hab; cases hab
      · by_cases hyx : y < x
        · rw [if_pos hyx] at hba; cases hba
        · have : x = y := by omega
          subst this
          rw [if_neg hxy, if_neg hxy] at hab hba
          rw [ih ys hab hba]

/-- Comparing under a shared prefix compares the remainders. -/
theorem byteLt_append_left : ∀ (p a b : List Nat),
    byteLt (p ++ a) (p ++ b) = byteLt a b := by
  intro p
  induction p with
  | nil => intro a b; rfl
  | cons x xs ih => intro a b; simp [byteLt, ih]

/-- A key between two extensions of a prefix itself extends the
prefix. -/
theorem prefix_of_between : ∀ (P k s t : List Nat),
    byteLt k (P ++ s) = false → byteLt (P ++ t) k = false → P <+: k := by
  intro P
  induction P with
  | nil => intro k s t _ _; exact List.nil_prefix
  | cons x Ps ih =>
    intro k s t h1 h2
    cases k with
    | nil => cases h1
    | cons a ks =>
      simp only [List.cons_append, byteLt] at h1 h2
      by_cases hax : a < x
      · rw [if_pos hax] at h1; cases h1
      · by_cases hxa : x < a
        · rw [if_pos hxa] at h2; cases h2
        · have : a = x := by omega
          subst this
          rw [if_neg hax, if_neg hax] at h1 h2
          exact List.cons_prefix_cons.mpr ⟨rfl, ih ks s t h1 h2⟩

/-- On a sorted run whose keys are all at or above the start key, the
reader's take-while (prefix matches and key at most the stop key)
selects exactly the filter of that condition together with the start
bound. -/
theorem takeWhile_eq_filter_ge (pfx s4 t4 : List Nat) :
    ∀ l : List (List Nat × List Nat),
      List.Pairwise (fun x y => byteLt x.1 y.1 = true) l →
      (∀ y ∈ l, byteLt y.1 (pfx ++ s4) = false) →
      l.takeWhile (fun kv => pfx.isPrefixOf kv.1 && byteLe kv.1 (pfx ++ t4)) =
        l.filter (fun kv => byteLe (pfx ++ s4) kv.1 && pfx.isPrefixOf kv.1 &&
          byteLe kv.1 (pfx ++ t4)) := by
  intro l
  induction l with
  | nil => intro _ _; rfl
  | cons kv r ih =>
    intro hsort hge
    have hkv : byteLt kv.1 (pfx ++ s4) = false := hge kv (List.mem_cons_self _ _)
    have hstart : byteLe (pfx ++ s4) kv.1 = true := by
      rw [byteLe, hkv]; rfl
    by_cases hq : (pfx.isPrefixOf kv.1 && byteLe kv.1 (pfx ++ t4)) = true
    · rw [List.takeWhile_cons, if_pos hq, List.filter_cons,
        if_pos (by rw [hstart, Bool.true_and, hq])]
      rw [ih hsort.of_cons (fun y hy => hge y (List.mem_cons_of_mem _ hy))]
    · have hstop : byteLt (pfx ++ t4) kv.1 = true := by
        by_contra hc
        have hc' : byteLt (pfx ++ t4) kv.1 = false := by
          cases h : byteLt (pfx ++ t4) kv.1
          · rfl
          · exact absurd h hc
        have hpre : pfx <+: kv.1 := prefix_of_between pfx kv.1 s4 t4 hkv hc'
        have : (pfx.isPrefixOf kv.1 && byteLe kv.1 (pfx ++ t4)) = true := by
          rw [List.isPrefixOf_iff_prefix.mpr hpre, byteLe, hc']
          rfl
        exact hq this
      rw [List.takeWhile_cons, if_neg hq]
      have hnil : (kv :: r).filter (fun kv => byteLe (pfx ++ s4) kv.1 &&
          pfx.isPrefixOf kv.1 && byteLe kv.1 (pfx ++ t4)) = [] := by
        rw [List.filter_eq_nil_iff]
        intro a ha
        rcases List.mem_cons.mp ha with h | h
        · have hle0 : byteLe a.1 (pfx ++ t4) = false := by
            rw [h, byteLe, hstop]; rfl
          simp [hle0]
        · have hlt : byteLt kv.1 a.1 = true := (List.pairwise_cons.mp hsort).1 a h
          have hlt2 : byteLt (pfx ++ t4) a.1 = true := byteLt_trans _ _ _ hstop hlt
          have hle : byteLe a.1 (pfx ++ t4) = false := by rw [byteLe, hlt2]; rfl
          simp [hle]
      rw [hnil]

/-- On a sorted store, the reader's seek-then-scan visits exactly the
keys in the closed interval between the start and stop keys (all of
which extend the scan prefix). -/
theorem scanRange_eq_filter (pfx s4 t4 : List Nat) :
    ∀ store : List (List Nat × List Nat),
      List.Pairwise (fun x y => byteLt x.1 y.1 = true) store →
      scanRange store (pfx ++ s4) (pfx ++ t4) pfx =
        store.filter (fun kv => byteLe (pfx ++ s4) kv.1 && pfx.isPrefixOf kv.1 &&
          byteLe kv.1 (pfx ++ t4)) := by
  intro store
  induction store with
  | nil => intro _; rfl
  | cons kv r ih =>
    intro hsort
    by_cases hlt : byteLt kv.1 (pfx ++ s4) = true
    · have hdrop : (kv :: r).dropWhile (fun kv => byteLt kv.1 (pfx ++ s4)) =
          r.dropWhile (fun kv => byteLt kv.1 (pfx ++ s4)) :=
        List.dropWhile_cons_of_pos hlt
      have hcond : (byteLe (pfx ++ s4) kv.1 && pfx.isPrefixOf kv.1 &&
          byteLe kv.1 (pfx ++ t4)) = false := by
        have : byteLe (pfx ++ s4) kv.1 = false := by rw [byteLe, hlt]; rfl
        simp [this]
      rw [scanRange] at ih ⊢
      rw [hdrop, List.filter_cons, if_neg (by rw [hcond]; simp), ih hsort.of_cons]
    · have hkvge : byteLt kv.1 (pfx ++ s4) = false := by
        cases h : byteLt kv.1 (pfx ++ s4)
        · rfl
        · exact absurd h hlt
      have hge : ∀ y ∈ kv :: r, byteLt y.1 (pfx ++ s4) = false := by
        intro y hy
        rcases List.mem_cons.mp hy with h | h
        · rw [h]; exact hkvge
        · have hk : byteLt kv.1 y.1 = true := (List.pairwise_cons.mp hsort).1 y h
          cases hc : byteLt y.1 (pfx ++ s4)
          · rfl
          · exact absurd (byteLt_trans _ _ _ hk hc) (by rw [hkvge]; simp)
      rw [scanRange, List.dropWhile_cons, if_neg (by rw [hkvge]; simp)]
      exact takeWhile_eq_filter_ge pfx s4 t4 (kv :: r) hsort hge

/-- Four-byte big-endian encoding round-trips below 2^32. -/
theorem beVal4_beBytes4 (n : Nat) (h : n < 2 ^ 32) : beVal4 (beBytes4 n) = n := by
  simp only [beBytes4, beVal4]
  omega

/-- Lexicographic order of the four-byte big-endian encodings is the
numeric order. -/
theorem byteLt_beBytes4 (a b : Nat) (ha : a < 2 ^ 32) (hb : b < 2 ^ 32) :
    byteLt (beBytes4 a) (beBytes4 b) = true ↔ a < b := by
  simp only [beBytes4, byteLt]
  split_ifs <;> simp <;> omega

/-- Descending-height encoding inverts the order of heights. -/
theorem byteLt_packDescHeight (h1 h2 : Nat) (ha : h1 < 2 ^ 32) (hb : h2 < 2 ^ 32) :
    byteLt (packDescHeight h1) (packDescHeight h2) = true ↔ h2 < h1 := by
  rw [packDescHeight, packDescHeight,
    byteLt_beBytes4 _ _ (by omega) (by omega)]
  omega

/-- Non-strict form: the encoding of h1 is at most that of h2 exactly
when h2 ≤ h1. -/
theorem byteLe_packDescHeight (h1 h2 : Nat) (ha : h1 < 2 ^ 32) (hb : h2 < 2 ^ 32) :
    byteLe (packDescHeight h1) (packDescHeight h2) = true ↔ h2 ≤ h1 := by
  constructor
  · intro h
    by_contra hc
    have hlt : byteLt (packDescHeight h2) (packDescHeight h1) = true :=
      (byteLt_packDescHeight h2 h1 hb ha).mpr (by omega)
    rw [byteLe, hlt] at h
    cases h
  · intro h
    rw [byteLe]
    cases hc : byteLt (packDescHeight h2) (packDescHeight h1)
    · rfl
    · exact absurd ((byteLt_packDescHeight h2 h1 hb ha).mp hc) (by omega)

/-- Decoding inverts the descending-height encoding. -/
theorem unpackDescHeight_packDescHeight (h : Nat) (hh : h < 2 ^ 32) :
    unpackDescHeight (packDescHeight h) = h := by
  rw [unpackDescHeight, packDescHeight, beVal4_beBytes4 _ (by omega)]
  omega

/-- The descending-height suffix is four bytes long. -/
theorem packDescHeight_length (h : Nat) : (packDescHeight h).length = 4 := rfl

/-- The trailing four bytes of a prefixed height key are its height
suffix. -/
theorem key_height_suffix (P : List Nat) (h : Nat) :
    (P ++ packDescHeight h).drop ((P ++ packDescHeight h).length - 4) =
      packDescHeight h := by
  rw [List.length_append, packDescHeight_length]
  have : P.length + 4 - 4 = P.length := by omega
  rw [this, List.drop_left]

/-- Non-strict comparison under a shared prefix. -/
theorem byteLe_append_left (p a b : List Nat) :
    byteLe (p ++ a) (p ++ b) = byteLe a b := by
  rw [byteLe, byteLe, byteLt_append_left]

/-- Calls produced for one stored entry of a height-suffixed key. -/
theorem entryCalls_key (p : ChainP) (k v : List Nat) (h : Nat) (hh : h < 2 ^ 32) :
    entryCalls p (k ++ packDescHeight h, v) =
      (parseValue p v).map (fun r => (r.1, h, r.2)) := by
  rw [entryCalls]
  simp only [key_height_suffix, unpackDescHeight_packDescHeight h hh]

/-- Membership in a flat map. -/
theorem flatMap_congr {α β : Type} (l : List α) (f g : α → List β)
    (h : ∀ a ∈ l, f a = g a) : l.flatMap f = l.flatMap g := by
  induction l with
  | nil => rfl
  | cons x xs ih =>
    simp only [List.flatMap_cons]
    rw [h x (List.mem_cons_self _ _), ih (fun a ha => h a (List.mem_cons_of_mem _ ha))]

/-- Pairwise non-increase of heights of the calls of a flat map whose
group heights strictly decrease. -/
theorem pairwise_calls_of_heights {W : Type} (hfun : W → Nat)
    (gfun : W → List (List Char × Nat × List Int))
    (hg : ∀ w, ∀ x ∈ gfun w, x.2.1 = hfun w) :
    ∀ l : List W, List.Pairwise (fun w w' => hfun w' < hfun w) l →
      List.Pairwise (fun x y => y.2.1 ≤ x.2.1) (l.flatMap gfun) := by
  intro l
  induction l with
  | nil => intro _; simp
  | cons w l ih =>
    intro hpw
    rw [List.flatMap_cons, List.pairwise_append]
    refine ⟨?_, ih (List.pairwise_cons.mp hpw).2, ?_⟩
    · apply List.pairwise_of_forall_mem_list
      intro x hx y hy
      rw [hg w x hx, hg w y hy]
    · intro x hx y hy
      obtain ⟨w', hw', hyw'⟩ := List.mem_flatMap.mp hy
      rw [hg w x hx, hg w' y hyw']
      exact le_of_lt ((List.pairwise_cons.mp hpw).1 w' hw')

/-- The reader's selection condition for a stored height-suffixed write,
reduced to the write's fields. -/
theorem scan_cond_write {W : Type} (pfx : List Nat) (lower higher : Nat)
    (kfun : W → List Nat) (hfun : W → Nat) (w : W)
    (hpfxw : pfx.isPrefixOf (kfun w ++ packDescHeight (hfun w)) = true → kfun w = pfx)
    (hhw : hfun w < 2 ^ 32) (hlh : lower ≤ higher) (hhi : higher < 2 ^ 32) :
    (byteLe (pfx ++ packDescHeight higher) (kfun w ++ packDescHeight (hfun w)) &&
      pfx.isPrefixOf (kfun w ++ packDescHeight (hfun w)) &&
      byteLe (kfun w ++ packDescHeight (hfun w)) (pfx ++ packDescHeight lower)) =
    decide (kfun w = pfx ∧ lower ≤ hfun w ∧ hfun w ≤ higher) := by
  rw [Bool.eq_iff_iff]
  simp only [Bool.and_eq_true, decide_eq_true_eq]
  constructor
  · rintro ⟨⟨h1, h2⟩, h3⟩
    have hk : kfun w = pfx := hpfxw h2
    rw [hk] at h1 h3
    rw [byteLe_append_left] at h1 h3
    refine ⟨hk, ?_, ?_⟩
    · exact (byteLe_packDescHeight _ _ hhw (by omega)).mp h3
    · exact (byteLe_packDescHeight _ _ hhi hhw).mp h1
  · rintro ⟨hk, hlo, hhi2⟩
    rw [hk]
    refine ⟨⟨?_, ?_⟩, ?_⟩
    · rw [byteLe_append_left]
      exact (byteLe_packDescHeight _ _ hhi hhw).mpr hhi2
    · exact List.isPrefixOf_iff_prefix.mpr (List.prefix_append _ _)
    · rw [byteLe_append_left]
      exact (byteLe_packDescHeight _ _ hhw (by omega)).mpr hlo

/-- Generic form of the history readers on a write-built store: the
calls are exactly those of the writes under the scan prefix with height
in the closed range, newest first. -/
theorem scanCalls_generic {W : Type} (p : ChainP) (pfx : List Nat)
    (lower higher : Nat) (kfun : W → List Nat) (hfun : W → Nat)
    (vfun : W → List Nat) (ws : List W)
    (hsort : List.Pairwise (fun x y => byteLt x.1 y.1 = true)
      (ws.map (fun w => (kfun w ++ packDescHeight (hfun w), vfun w))))
    (hpfx : ∀ w ∈ ws,
      pfx.isPrefixOf (kfun w ++ packDescHeight (hfun w)) = true → kfun w = pfx)
    (hhw : ∀ w ∈ ws, hfun w < 2 ^ 32)
    (hlh : lower ≤ higher) (hhi : higher < 2 ^ 32) :
    (scanRange (ws.map (fun w => (kfun w ++ packDescHeight (hfun w), vfun w)))
        (pfx ++ packDescHeight higher) (pfx ++ packDescHeight lower) pfx).flatMap
      (entryCalls p) =
      (ws.filter (fun w =>
        decide (kfun w = pfx ∧ lower ≤ hfun w ∧ hfun w ≤ higher))).flatMap
        (fun w => (parseValue p (vfun w)).map (fun r => (r.1, hfun w, r.2))) ∧
    List.Pairwise (fun x y => y.2.1 ≤ x.2.1)
      ((ws.filter (fun w =>
        decide (kfun w = pfx ∧ lower ≤ hfun w ∧ hfun w ≤ higher))).flatMap
        (fun w => (parseValue p (vfun w)).map (fun r => (r.1, hfun w, r.2)))) := by
  constructor
  · rw [scanRange_eq_filter pfx (packDescHeight higher) (packDescHeight lower) _ hsort]
    rw [List.filter_map, List.flatMap_map]
    have hfc : (ws.filter ((fun kv => byteLe (pfx ++ packDescHeight higher) kv.1 &&
          pfx.isPrefixOf kv.1 && byteLe kv.1 (pfx ++ packDescHeight lower)) ∘
          (fun w => (kfun w ++ packDescHeight (hfun w), vfun w)))) =
        ws.filter (fun w =>
          decide (kfun w = pfx ∧ lower ≤ hfun w ∧ hfun w ≤ higher)) := by
      apply List.filter_congr
      intro w hw
      exact scan_cond_write pfx lower higher kfun hfun w (hpfx w hw) (hhw w hw) hlh hhi
    rw [hfc]
    apply flatMap_congr
    intro w hw
    exact entryCalls_key p (kfun w) (vfun w) (hfun w)
      (hhw w (List.mem_filter.mp hw).1)
  · have hpairkeys : List.Pairwise (fun w w' =>
        byteLt (kfun w ++ packDescHeight (hfun w))
          (kfun w' ++ packDescHeight (hfun w')) = true) ws := by
      have := (List.pairwise_map).mp hsort
      exact this
    have hpairf : List.Pairwise (fun w w' => hfun w' < hfun w)
        (ws.filter (fun w =>
          decide (kfun w = pfx ∧ lower ≤ hfun w ∧ hfun w ≤ higher))) := by
      have hfil := hpairkeys.filter (fun w =>
        decide (kfun w = pfx ∧ lower ≤ hfun w ∧ hfun w ≤ higher))
      refine hfil.imp_of_mem ?_
      intro a b ha hb hr
      have hpa := (decide_eq_true_eq).mp ((List.mem_filter.mp ha).2)
      have hpb := (decide_eq_true_eq).mp ((List.mem_filter.mp hb).2)
      rw [hpa.1, hpb.1, byteLt_append_left] at hr
      have haw := hhw a (List.mem_filter.mp ha).1
      have hbw := hhw b (List.mem_filter.mp hb).1
      exact (byteLt_packDescHeight _ _ haw hbw).mp hr
    exact pairwise_calls_of_heights hfun _
      (by intro w x hx; obtain ⟨r, _, hr⟩ := List.mem_map.mp hx; rw [← hr]) _ hpairf

/-- Global history key, reassociated around its height suffix. -/
theorem gtKey_assoc (c : List Nat) (h : Nat) :
    makeGlobalAssetTxKey c h = (gtPfx ++ c) ++ packDescHeight h := by
  rw [makeGlobalAssetTxKey, List.append_assoc]

/-- Per-address history key, reassociated around its height suffix. -/
theorem axKey_assoc (ad c : List Nat) (h : Nat) :
    makeAddrAssetTxKey ad c h = (axPfx ++ ad ++ c) ++ packDescHeight h := by
  rw [makeAddrAssetTxKey]

/-- Claim C5, amended: provided every stored history key that extends
the scan prefix belongs to the queried controller (resp. to the queried
address and controller) — a property the variable-length key layout
does not enforce by itself — the two history readers invoke the
callback exactly for the stored entries with lower ≤ height ≤ higher,
visit heights in non-increasing (newest-first) order, and never pass
the callback an entry of a different controller or address. -/
theorem claimC5_history_reads (p : ChainP) (c : List Nat) (lower higher : Nat)
    (ws : List GtWrite) (a : List Nat) (aws : List AxWrite)
    (hsort : sortedByKey (gtStore ws))
    (hiso : ∀ w ∈ ws,
      (gtPfx ++ c).isPrefixOf (makeGlobalAssetTxKey w.ctrl w.height) = true →
        w.ctrl = c)
    (hhw : ∀ w ∈ ws, w.height < 2 ^ 32)
    (hsort2 : sortedByKey (axStore aws))
    (hiso2 : ∀ w ∈ aws,
      (axPfx ++ a ++ c).isPrefixOf (makeAddrAssetTxKey w.addr w.ctrl w.height) = true →
        w.addr = a ∧ w.ctrl = c)
    (hhw2 : ∀ w ∈ aws, w.height < 2 ^ 32)
    (hlh : lower ≤ higher) (hhi : higher < 2 ^ 32) :
    GetAssetTransactionsCalls p (gtStore ws) c lower higher =
      (ws.filter (fun w =>
        decide (w.ctrl = c ∧ lower ≤ w.height ∧ w.height ≤ higher))).flatMap
        (fun w => (parseValue p w.val).map (fun r => (r.1, w.height, r.2))) ∧
    List.Pairwise (fun x y => y.2.1 ≤ x.2.1)
      (GetAssetTransactionsCalls p (gtStore ws) c lower higher) ∧
    GetAddrDescAssetTransactionsCalls p (axStore aws) a c lower higher =
      (aws.filter (fun w =>
        decide (w.addr = a ∧ w.ctrl = c ∧ lower ≤ w.height ∧ w.height ≤ higher))).flatMap
        (fun w => (parseValue p w.val).map (fun r => (r.1, w.height, r.2))) ∧
    List.Pairwise (fun x y => y.2.1 ≤ x.2.1)
      (GetAddrDescAssetTransactionsCalls p (axStore aws) a c lower higher) := by
  have hgst : gtStore ws =
      ws.map (fun w => ((gtPfx ++ w.ctrl) ++ packDescHeight w.height, w.val)) := by
    simp only [gtStore, gtKey_assoc]
  have hast : axStore aws =
      aws.map (fun w =>
        ((axPfx ++ w.addr ++ w.ctrl) ++ packDescHeight w.height, w.val)) := by
    simp only [axStore, axKey_assoc]
  have hgen := scanCalls_generic p (gtPfx ++ c) lower higher
    (fun w => gtPfx ++ w.ctrl) GtWrite.height GtWrite.val ws
    (by rw [← hgst]; exact hsort)
    (by
      intro w hw hpre
      have := hiso w hw (by rw [gtKey_assoc]; exact hpre)
      simp only []
      rw [this])
    hhw hlh hhi
  have hgen2 := scanCalls_generic p (axPfx ++ a ++ c) lower higher
    (fun w => axPfx ++ w.addr ++ w.ctrl) AxWrite.height AxWrite.val aws
    (by rw [← hast]; exact hsort2)
    (by
      intro w hw hpre
      have h2 := hiso2 w hw (by rw [axKey_assoc]; exact hpre)
      simp only []
      rw [h2.1, h2.2])
    hhw2 hlh hhi
  have hGT : GetAssetTransactionsCalls p (gtStore ws) c lower higher =
      (scanRange (ws.map (fun w => ((gtPfx ++ w.ctrl) ++ packDescHeight w.height, w.val)))
        ((gtPfx ++ c) ++ packDescHeight higher) ((gtPfx ++ c) ++ packDescHeight lower)
        (gtPfx ++ c)).flatMap (entryCalls p) := by
    rw [GetAssetTransactionsCalls, hgst]
  have hAX : GetAddrDescAssetTransactionsCalls p (axStore aws) a c lower higher =
      (scanRange (aws.map (fun w =>
          ((axPfx ++ w.addr ++ w.ctrl) ++ packDescHeight w.height, w.val)))
        ((axPfx ++ a ++ c) ++ packDescHeight higher)
        ((axPfx ++ a ++ c) ++ packDescHeight lower)
        (axPfx ++ a ++ c)).flatMap (entryCalls p) := by
    rw [GetAddrDescAssetTransactionsCalls, hast]
  have hpredgt : ws.filter (fun w =>
        decide (gtPfx ++ w.ctrl = gtPfx ++ c ∧ lower ≤ w.height ∧ w.height ≤ higher)) =
      ws.filter (fun w =>
        decide (w.ctrl = c ∧ lower ≤ w.height ∧ w.height ≤ higher)) := by
    apply List.filter_congr
    intro w _
    rw [decide_eq_decide]
    constructor
    · rintro ⟨h1, h2⟩; exact ⟨List.append_cancel_left h1, h2⟩
    · rintro ⟨h1, h2⟩; exact ⟨by rw [h1], h2⟩
  have hpredax : aws.filter (fun w =>
        decide (axPfx ++ w.addr ++ w.ctrl = axPfx ++ a ++ c ∧
          lower ≤ w.height ∧ w.height ≤ higher)) =
      aws.filter (fun w =>
        decide (w.addr = a ∧ w.ctrl = c ∧ lower ≤ w.height ∧ w.height ≤ higher)) := by
    apply List.filter_congr
    intro w hw
    rw [decide_eq_decide]
    constructor
    · rintro ⟨h1, h2⟩
      have hpre : (axPfx ++ a ++ c).isPrefixOf
          (makeAddrAssetTxKey w.addr w.ctrl w.height) = true := by
        rw [axKey_assoc, h1]
        exact List.isPrefixOf_iff_prefix.mpr (List.prefix_append _ _)
      obtain ⟨ha, hc⟩ := hiso2 w hw hpre
      exact ⟨ha, hc, h2⟩
    · rintro ⟨h1, h2, h3⟩
      exact ⟨by rw [h1, h2], h3⟩
  refine ⟨?_, ?_, ?_, ?_⟩
  · rw [hGT, hgen.1, hpredgt]
  · rw [hGT, hgen.1]
    exact hgen.2
  · rw [hAX, hgen2.1, hpredax]
  · rw [hAX, hgen2.1]
    exact hgen2.2

/-- Witness for claim C5 (amended): three stored global writes (two of
controller [5], one of [6]) and two per-address writes; querying
controller [5] (resp. address [4], controller [5]) with bounds 5..15
selects exactly the height-10 write. -/
theorem claimC5_witness :
    GetAssetTransactionsCalls toyP (gtStore c5ws) [5] 5 15 =
      (c5ws.filter (fun w =>
        decide (w.ctrl = [5] ∧ 5 ≤ w.height ∧ w.height ≤ 15))).flatMap
        (fun w => (parseValue toyP w.val).map (fun r => (r.1, w.height, r.2))) ∧
    List.Pairwise (fun x y => y.2.1 ≤ x.2.1)
      (GetAssetTransactionsCalls toyP (gtStore c5ws) [5] 5 15) ∧
    GetAddrDescAssetTransactionsCalls toyP (axStore c5aws) [4] [5] 5 15 =
      (c5aws.filter (fun w =>
        decide (w.addr = [4] ∧ w.ctrl = [5] ∧ 5 ≤ w.height ∧ w.height ≤ 15))).flatMap
        (fun w => (parseValue toyP w.val).map (fun r => (r.1, w.height, r.2))) ∧
    List.Pairwise (fun x y => y.2.1 ≤ x.2.1)
      (GetAddrDescAssetTransactionsCalls toyP (axStore c5aws) [4] [5] 5 15) :=
  claimC5_history_reads toyP [5] 5 15 c5ws [4] c5aws
    (by simp only [sortedByKey]; decide) (by decide) (by decide)
    (by simp only [sortedByKey]; decide) (by decide) (by decide) (by decide)
    (by decide)

/-- Counterexample for claim C5 as stated: the store holds a single
history entry of controller [2, 255]; a query for controller [2] (whose
scan prefix the stored key extends) invokes the callback once with that
foreign entry instead of never. -/
theorem claimC5_counterexample :
    storeC5 = gtStore [⟨[2, 255], 4294967295, packAssetTxEntry [88, 89] [0]⟩] ∧
    GetAssetTransactionsCalls toyP storeC5 [2] 0 4294967295 =
      [(['X', 'Y'], 4294967295, [0])] ∧
    GetAssetTransactionsCalls toyP storeC5 [2] 0 4294967295 ≠ [] := by
  refine ⟨by decide, by decide, by decide⟩

/-- A key extending the seek prefix is not below it. -/
theorem byteLt_of_prefix (P k : List Nat) (h : P <+: k) : byteLt k P = false := by
  obtain ⟨t, ht⟩ := h
  have : byteLt k P = byteLt (P ++ t) (P ++ []) := by rw [← ht, List.append_nil]
  rw [this, byteLt_append_left]
  cases t <;> rfl

/-- A key at or above the prefix that does not extend it sits above
every key that does extend it. -/
theorem prefixed_lt_of_not_prefixed : ∀ (P k : List Nat),
    byteLt k P = false → ¬ (P <+: k) → ∀ y : List Nat, P <+: y → byteLt y k = true := by
  intro P
  induction P with
  | nil => intro k _ hnp _ _; exact absurd (List.nil_prefix) hnp
  | cons x Ps ih =>
    intro k hk hnp y hy
    cases k with
    | nil => cases hk
    | cons a ks =>
      obtain ⟨ty, hty⟩ := hy
      cases hty
      simp only [byteLt] at hk ⊢
      by_cases hax : a < x
      · rw [if_pos hax] at hk; cases hk
      · by_cases hxa : x < a
        · rw [if_pos hxa]
        · have hxe : x = a := by omega
          subst hxe
          rw [if_neg hax, if_neg hax] at hk
          rw [if_neg (by omega), if_neg (by omega)]
          have hnp' : ¬ (Ps <+: ks) := by
            intro hc
            exact hnp (List.cons_prefix_cons.mpr ⟨rfl, hc⟩)
          exact ih ks hk hnp' _ ⟨ty, rfl⟩

/-- On a sorted run of keys at or above the prefix, the take-while of
the prefix test is the filter of the prefix test. -/
theorem takeWhile_prefix_eq_filter (pfx : List Nat) :
    ∀ l : List (List Nat × List Nat),
      List.Pairwise (fun x y => byteLt x.1 y.1 = true) l →
      (∀ y ∈ l, byteLt y.1 pfx = false) →
      l.takeWhile (fun kv => pfx.isPrefixOf kv.1) =
        l.filter (fun kv => pfx.isPrefixOf kv.1) := by
  intro l
  induction l with
  | nil => intro _ _; rfl
  | cons kv r ih =>
    intro hsort hge
    by_cases hq : pfx.isPrefixOf kv.1 = true
    · rw [List.takeWhile_cons, if_pos hq, List.filter_cons, if_pos hq,
        ih hsort.of_cons (fun y hy => hge y (List.mem_cons_of_mem _ hy))]
    · rw [List.takeWhile_cons, if_neg hq]
      have hnp : ¬ (pfx <+: kv.1) := fun hc =>
        hq (List.isPrefixOf_iff_prefix.mpr hc)
      have hnil : (kv :: r).filter (fun kv => pfx.isPrefixOf kv.1) = [] := by
        rw [List.filter_eq_nil_iff]
        intro b hb
        rcases List.mem_cons.mp hb with h | h
        · rw [h]
          simp [hq]
        · intro hbp
          have hbpre : pfx <+: b.1 := List.isPrefixOf_iff_prefix.mp hbp
          have h1 : byteLt b.1 kv.1 = true :=
            prefixed_lt_of_not_prefixed pfx kv.1 (hge kv (List.mem_cons_self _ _))
              hnp b.1 hbpre
          have h2 : byteLt kv.1 b.1 = true := (List.pairwise_cons.mp hsort).1 b h
          have := byteLt_trans _ _ _ h1 h2
          rw [byteLt_irrefl] at this
          cases this
      rw [hnil]

/-- On a sorted store, seek to the prefix then take while the prefix
matches selects exactly the prefixed keys. -/
theorem prefixScan_eq_filter (pfx : List Nat) :
    ∀ store : List (List Nat × List Nat),
      List.Pairwise (fun x y => byteLt x.1 y.1 = true) store →
      (store.dropWhile (fun kv => byteLt kv.1 pfx)).takeWhile
          (fun kv => pfx.isPrefixOf kv.1) =
        store.filter (fun kv => pfx.isPrefixOf kv.1) := by
  intro store
  induction store with
  | nil => intro _; rfl
  | cons kv r ih =>
    intro hsort
    by_cases hlt : byteLt kv.1 pfx = true
    · rw [List.dropWhile_cons, if_pos hlt, List.filter_cons, if_neg ?_, ih hsort.of_cons]
      intro hc
      have := byteLt_of_prefix pfx kv.1 (List.isPrefixOf_iff_prefix.mp hc)
      rw [this] at hlt
      cases hlt
    · have hkv : byteLt kv.1 pfx = false := by
        cases h : byteLt kv.1 pfx
        · rfl
        · exact absurd h hlt
      have hge : ∀ y ∈ kv :: r, byteLt y.1 pfx = false := by
        intro y hy
        rcases List.mem_cons.mp hy with h | h
        · rw [h]; exact hkv
        · cases hc : byteLt y.1 pfx
          · rfl
          · have hk : byteLt kv.1 y.1 = true := (List.pairwise_cons.mp hsort).1 y h
            exact absurd (byteLt_trans _ _ _ hk hc) (by rw [hkv]; simp)
      rw [List.dropWhile_cons, if_neg (by rw [hkv]; simp)]
      exact takeWhile_prefix_eq_filter pfx (kv :: r) hsort hge

/-- Per-address asset keys split as scan prefix plus controller bytes. -/
theorem aaKey_assoc (a c : List Nat) :
    makeAddrAssetKey a c = (aaPfx ++ a) ++ c := by
  rw [makeAddrAssetKey, List.append_assoc]

/-- The accumulation loop of GetAddrDescAssets over well-formed writes
of a single address returns one (controller, balance) entry per write. -/
theorem aaFold (a : List Nat) : ∀ (l : List AaWrite) (acc : List AddrAssetInfo),
    (∀ w ∈ l, w.addr = a) →
    (∀ w ∈ l, unpackAddrAssetBalance w.val = some (some w.bal)) →
    (l.map (fun w => (makeAddrAssetKey w.addr w.ctrl, w.val))).foldlM
      (fun acc kv =>
        match unpackAddrAssetBalance kv.2 with
        | none => Except.error GoErr.panik
        | some none => Except.ok acc
        | some (some ab) =>
            Except.ok (acc ++ [⟨kv.1.drop (aaPfx ++ a).length, ab⟩])) acc =
      Except.ok (acc ++ l.map (fun w => AddrAssetInfo.mk w.ctrl w.bal)) := by
  intro l
  induction l with
  | nil => intro acc _ _; simp [pure, Except.pure]
  | cons w r ih =>
    intro acc ha hd
    have hwa : w.addr = a := ha w (List.mem_cons_self _ _)
    have hwd := hd w (List.mem_cons_self _ _)
    have hkey : (makeAddrAssetKey w.addr w.ctrl).drop (aaPfx ++ a).length = w.ctrl := by
      rw [hwa, aaKey_assoc, List.drop_left]
    rw [List.map_cons, List.foldlM_cons]
    simp only [hwd, hkey, bind, Except.bind]
    rw [ih (acc ++ [AddrAssetInfo.mk w.ctrl w.bal])
      (fun w hw => ha w (List.mem_cons_of_mem _ hw))
      (fun w hw => hd w (List.mem_cons_of_mem _ hw))]
    simp

/-- Claim C7 (amended): when every stored key that extends the scan
prefix `"aa:" ++ a` was written for address `a` itself, and every stored
value decodes, GetAddrDescAssets on a sorted store returns exactly the
(controller, balance) pairs stored for `a`, each controller being the
stored controller bytes.  The hypothesis is necessary: a stored key of a
different address extending the prefix is returned with spliced
controller bytes (see the counterexample). -/
theorem claimC7_amended (ws : List AaWrite) (a : List Nat)
    (hsort : sortedByKey (aaStore ws))
    (hiso : ∀ w ∈ ws,
      (aaPfx ++ a).isPrefixOf (makeAddrAssetKey w.addr w.ctrl) = true → w.addr = a)
    (hdec : ∀ w ∈ ws, unpackAddrAssetBalance w.val = some (some w.bal)) :
    GetAddrDescAssets (aaStore ws) a =
      Except.ok ((ws.filter (fun w => decide (w.addr = a))).map
        (fun w => AddrAssetInfo.mk w.ctrl w.bal)) := by
  have hscan := prefixScan_eq_filter (aaPfx ++ a) (aaStore ws) hsort
  have hfm : (aaStore ws).filter (fun kv => (aaPfx ++ a).isPrefixOf kv.1) =
      (ws.filter (fun w => decide (w.addr = a))).map
        (fun w => (makeAddrAssetKey w.addr w.ctrl, w.val)) := by
    rw [aaStore, List.filter_map]
    congr 1
    apply List.filter_congr
    intro w hw
    by_cases hwa : w.addr = a
    · simp [Function.comp, hwa, aaKey_assoc, List.isPrefixOf_iff_prefix]
    · have hnp : (aaPfx ++ a).isPrefixOf (makeAddrAssetKey w.addr w.ctrl) = false := by
        cases hc : (aaPfx ++ a).isPrefixOf (makeAddrAssetKey w.addr w.ctrl)
        · rfl
        · exact absurd (hiso w hw hc) hwa
      simp [Function.comp, hnp, hwa]
  have hmem : ∀ w ∈ ws.filter (fun w => decide (w.addr = a)), w.addr = a := by
    intro w hw
    exact of_decide_eq_true (List.mem_filter.mp hw).2
  have hdecf : ∀ w ∈ ws.filter (fun w => decide (w.addr = a)),
      unpackAddrAssetBalance w.val = some (some w.bal) := by
    intro w hw
    exact hdec w (List.mem_filter.mp hw).1
  have hfold := aaFold a (ws.filter (fun w => decide (w.addr = a))) [] hmem hdecf
  simp only [GetAddrDescAssets]
  rw [hscan, hfm, hfold]
  simp

/-- Witness for claim C7 (amended): a sorted store of two assets of
address [8]; the query returns both stored controllers with their
stored balances. -/
theorem claimC7_witness :
    GetAddrDescAssets (aaStore c7ws) [8] =
      Except.ok ((c7ws.filter (fun w => decide (w.addr = [8]))).map
        (fun w => AddrAssetInfo.mk w.ctrl w.bal)) :=
  claimC7_amended c7ws [8] (by simp only [sortedByKey]; decide) (by decide) (by decide)

/-- Counterexample for claim C7 as stated: a single balance stored for
address [1, 2] under controller [3]; querying the proper byte-prefix
address [1] returns that foreign entry, with controller bytes [2, 3]
spliced from the remainder of the key — neither empty output for a1 nor
the controller under which a2's balance was stored. -/
theorem claimC7_counterexample :
    storeC7 = aaStore [⟨[1, 2], [3], packAddrAssetBalance balCE, balCE⟩] ∧
    GetAddrDescAssets storeC7 [1] = Except.ok [⟨[2, 3], balCE⟩] ∧
    GetAddrDescAssets storeC7 [1, 2] = Except.ok [⟨[3], balCE⟩] := by
  refine ⟨by decide, by decide, by decide⟩
